import Mathlib

/-!
# Record/replay channel (revdb_include.h) and JIT event logger (jitlog_main.h)

A shallow embedding of the two C headers and the properties proved about them.

Conventions of the embedding.

* Addresses, sizes and machine integers are natural numbers; `uint64_t` arithmetic is
  reduced modulo `2 ^ 64` where the C code can overflow.
* Memory is a map from addresses to bytes.  A fixed-width value of `n` bytes is
  stored as its `n` little-endian bytes (the host byte order; nothing below depends
  on the choice, the same function writes and reads).
* The preprocessor definitions of revdb_include.h become functions from the state
  before the expansion to an `Outcome`: the list of external functions the expansion
  called, in order, and the state after it (`none` when the process did not get
  there: a fatal error in a callee, or a store through a null pointer).
-/

namespace Revdb

/-! ## Data model -/

/-- The C struct `rpy_revdb_t` (revdb_include.h, lines 12-22), compiled with the
dynamic `replay` flag. -/
structure rpy_revdb_t where
  replay : Bool
  buf_p : Nat
  buf_limit : Nat
  stop_point_seen : Nat
  stop_point_break : Nat
  unique_id_seen : Nat
  unique_id_break : Nat
  saved_exc0 : Nat
  saved_exc1 : Nat

/-- Modelled from the spec: the state owned by the Flush/Fetch Transport, whose
implementation (the C file defining `rpy_reverse_db_flush`, `rpy_reverse_db_fetch`,
`rpy_reverse_db_setup` and `rpy_reverse_db_teardown`) is not among the sources.
`buf_start` is the address of the staging buffer, `buf_size` its capacity,
`store` the bytes of the backing store and `store_pos` the number of its bytes
already loaded while replaying. -/
structure Transport where
  buf_start : Nat
  buf_size : Nat
  store : List Nat
  store_pos : Nat

/-- Everything the expansions of revdb_include.h can read or write: the global
`rpy_revdb`, the byte memory, the `h_uid` header field of each object (by
address), the transport, and the state `host` of the instrumented program
outside the channel. -/
structure World (H : Type) where
  rpy_revdb : rpy_revdb_t
  mem : Nat → Nat
  h_uid : Nat → Nat
  tr : Transport
  host : H

/-- The external functions declared at lines 105-116 that the expansions call. -/
inductive Call where
  | flush
  | fetch (expected_size : Nat)
  | stop_point
  | unique_id_break (new_object : Nat)
  deriving DecidableEq, Repr

/-- What one expansion did: the external calls it made, in order, and what it
produced (`none`: the process did not reach the end of the expansion). -/
structure Outcome (α : Type) where
  calls : List Call
  result : Option α

/-- The two transport functions `RPY_REVDB_EMIT` calls, declared at lines 105-107
and defined outside the sources: `flush` for `rpy_reverse_db_flush` (the state it
leaves) and `fetch` for `rpy_reverse_db_fetch` (given `expected_size`: the state
it leaves and the pointer it returns).  `none` stands for a call that ends the
process with a fatal error. -/
structure Channel (H : Type) where
  flush : World H → Option (World H)
  fetch : Nat → World H → Option (World H × Nat)

/-! ## Memory -/

/-- The object representation of `v` as `n` bytes, least significant first. -/
def object_bytes : Nat → Nat → List Nat
  | 0, _ => []
  | n + 1, v => v % 256 :: object_bytes n (v / 256)

/-- The value whose object representation is `bs`. -/
def value_of : List Nat → Nat
  | [] => 0
  | b :: bs => b + 256 * value_of bs

/-- The `n` bytes of memory from address `p` on. -/
def read_bytes (mem : Nat → Nat) (p : Nat) : Nat → List Nat
  | 0 => []
  | n + 1 => mem p :: read_bytes mem (p + 1) n

/-- Memory after `memcpy(p, bs, bs.length)`. -/
def memcpy_to (mem : Nat → Nat) (p : Nat) (bs : List Nat) : Nat → Nat :=
  fun a => if p ≤ a then bs.getD (a - p) (mem a) else mem a

/-! ## Flush/Fetch Transport -/

/-- Modelled from the spec: `rpy_reverse_db_flush` (declared at line 105, defined
outside the sources).  Spec 4.3: "writes the full occupied region of the buffer to
the backing store, resets position to the start".  The occupied region runs from
the buffer start to `buf_p`. -/
def rpy_reverse_db_flush {H : Type} (w : World H) : World H :=
  { w with
    tr := { w.tr with
      store := w.tr.store ++
        read_bytes w.mem w.tr.buf_start (w.rpy_revdb.buf_p - w.tr.buf_start) }
    rpy_revdb := { w.rpy_revdb with buf_p := w.tr.buf_start } }

/-- Modelled from the spec: `rpy_reverse_db_fetch` (declared at line 106, defined
outside the sources).  Spec 4.3: "loads the next chunk from the backing store into
the buffer, returning a pointer to a region containing at least `expected_size`
contiguous bytes.  If the backing store is exhausted before satisfying
`expected_size`, this is a fatal replay-divergence error".  Spec 3 makes the bytes
between `buf_p` and `buf_limit` the not-yet-consumed ones, so they are kept: they
are moved to the buffer start and the chunk read from the store follows them.
The chunk fills the buffer up to its capacity, or up to `expected_size` when the
capacity is smaller ("a freshly loaded region sized exactly to the pending read").
Returns the new state and the pointer, or `none` for the fatal error. -/
def rpy_reverse_db_fetch {H : Type} (expected_size : Nat) (w : World H) :
    Option (World H × Nat) :=
  let keep := w.rpy_revdb.buf_limit - w.rpy_revdb.buf_p
  let kept := read_bytes w.mem w.rpy_revdb.buf_p keep
  let chunk := (w.tr.store.drop w.tr.store_pos).take
    (max expected_size w.tr.buf_size - keep)
  if keep + chunk.length < expected_size then none
  else
    some ({ w with
      mem := memcpy_to w.mem w.tr.buf_start (kept ++ chunk)
      tr := { w.tr with store_pos := w.tr.store_pos + chunk.length }
      rpy_revdb := { w.rpy_revdb with
        buf_p := w.tr.buf_start
        buf_limit := w.tr.buf_start + (keep + chunk.length) } },
      w.tr.buf_start)

/-- Modelled from the spec: the state `rpy_reverse_db_setup` (line 29, defined
outside the sources) leaves for a recording session.  Spec 6: "determines mode
(record vs replay) and opens the backing store"; the buffer at `start` with
capacity `cap` is empty and so is the store.  The counters, on which the
spec is silent, start at zero. -/
def setup_record {H : Type} (start cap : Nat) (mem h_uid : Nat → Nat) (host : H) :
    World H :=
  { rpy_revdb :=
      { replay := false, buf_p := start, buf_limit := start + cap,
        stop_point_seen := 0, stop_point_break := 0,
        unique_id_seen := 0, unique_id_break := 0,
        saved_exc0 := 0, saved_exc1 := 0 }
    mem := mem
    h_uid := h_uid
    tr := { buf_start := start, buf_size := cap, store := [], store_pos := 0 }
    host := host }

/-- Modelled from the spec: the state `rpy_reverse_db_setup` leaves for a
replaying session over the backing store `store`: nothing is loaded yet, so the
not-yet-consumed region is empty (`buf_p = buf_limit`) and the first read
fetches. -/
def setup_replay {H : Type} (start cap : Nat) (store : List Nat)
    (mem h_uid : Nat → Nat) (host : H) : World H :=
  { rpy_revdb :=
      { replay := true, buf_p := start, buf_limit := start,
        stop_point_seen := 0, stop_point_break := 0,
        unique_id_seen := 0, unique_id_break := 0,
        saved_exc0 := 0, saved_exc1 := 0 }
    mem := mem
    h_uid := h_uid
    tr := { buf_start := start, buf_size := cap, store := store, store_pos := 0 }
    host := host }

/-- Modelled from the spec: `rpy_reverse_db_teardown` (line 30, defined outside
the sources).  Spec 6: "flushes any pending record-mode buffer content and closes
the backing store"; spec 4.3 has the flush at teardown "persist a partial trailing
buffer".  So in record mode it flushes when the occupied region of the buffer is
not empty (`buf_start < buf_p`), and calls nothing when no content is pending. -/
def rpy_reverse_db_teardown {H : Type} (w : World H) : Outcome (World H) :=
  if w.rpy_revdb.replay then ⟨[], some w⟩
  else if w.tr.buf_start < w.rpy_revdb.buf_p then
    ⟨[Call.flush], some (rpy_reverse_db_flush w)⟩
  else ⟨[], some w⟩

/-- Modelled from the spec: the transport of spec 4.3, made of the two functions
above; its flush never fails. -/
def spec_channel {H : Type} : Channel H :=
  { flush := fun w => some (rpy_reverse_db_flush w)
    fetch := rpy_reverse_db_fetch }

/-! ## The expansions of revdb_include.h -/

/-- The expansion of `RPY_REVDB_EMIT(normal_code, decl_e, variable)`, lines 39-66.
`T` holds the two external transport functions; `sizeof_e` is `sizeof(_e)`;
`normal_code` is the wrapped statement, which acts on the host program and leaves
its value in `variable`.  The result carries the value of `variable` after the
expansion. -/
def RPY_REVDB_EMIT {H : Type} (T : Channel H) (normal_code : H → H × Nat) (sizeof_e : Nat)
    (w : World H) : Outcome (World H × Nat) :=
  if !w.rpy_revdb.replay then
    -- normal_code
    let r := normal_code w.host
    let var := r.2
    let w := { w with host := r.1 }
    -- decl_e = variable;
    let _e := var % 256 ^ sizeof_e
    -- memcpy(rpy_revdb.buf_p, &_e, sizeof(_e));
    let w := { w with mem := memcpy_to w.mem w.rpy_revdb.buf_p (object_bytes sizeof_e _e) }
    -- if ((rpy_revdb.buf_p += sizeof(_e)) > rpy_revdb.buf_limit) rpy_reverse_db_flush();
    let w := { w with rpy_revdb := { w.rpy_revdb with buf_p := w.rpy_revdb.buf_p + sizeof_e } }
    if w.rpy_revdb.buf_p > w.rpy_revdb.buf_limit then
      ⟨[Call.flush], (T.flush w).map (fun w => (w, var))⟩
    else
      ⟨[], some (w, var)⟩
  else
    -- char *_src = rpy_revdb.buf_p; char *_end1 = _src + sizeof(_e);
    let _src := w.rpy_revdb.buf_p
    let _end1 := _src + sizeof_e
    if _end1 > w.rpy_revdb.buf_limit then
      -- _src = rpy_reverse_db_fetch(sizeof(_e), ...); _end1 = _src + sizeof(_e);
      match T.fetch sizeof_e w with
      | none => ⟨[Call.fetch sizeof_e], none⟩
      | some (w, _src) =>
        let _end1 := _src + sizeof_e
        -- rpy_revdb.buf_p = _end1; memcpy(&_e, _src, sizeof(_e)); variable = _e;
        let w := { w with rpy_revdb := { w.rpy_revdb with buf_p := _end1 } }
        let _e := value_of (read_bytes w.mem _src sizeof_e)
        ⟨[Call.fetch sizeof_e], some (w, _e)⟩
    else
      let w := { w with rpy_revdb := { w.rpy_revdb with buf_p := _end1 } }
      let _e := value_of (read_bytes w.mem _src sizeof_e)
      ⟨[], some (w, _e)⟩

/-- The expansion of `RPY_REVDB_EMIT_VOID(normal_code)`, lines 68-69. -/
def RPY_REVDB_EMIT_VOID {H : Type} (normal_code : H → H) (w : World H) : World H :=
  if !w.rpy_revdb.replay then { w with host := normal_code w.host } else w

/-- The expansion of `OP_REVDB_GET_UNIQUE_ID(x, r)`, lines 99-100: the value of `r`. -/
def OP_REVDB_GET_UNIQUE_ID {H : Type} (x : Nat) (w : World H) : Nat :=
  w.h_uid x

/-- The tail of `RPY_REVDB_REC_UID`, lines 76-77: the counter becomes `uid + 1`
(a `uint64_t`) and `uid` is stored in the header of `expr`.  A null `expr` makes
the store a null-pointer write, after which there is no state to speak of. -/
def stamp_uid {H : Type} (expr uid : Nat) (w : World H) : Option (World H) :=
  let w := { w with rpy_revdb := { w.rpy_revdb with unique_id_seen := (uid + 1) % 2 ^ 64 } }
  if expr = 0 then none
  else some { w with h_uid := fun x => if x = expr then uid else w.h_uid x }

/-- The expansion of `RPY_REVDB_REC_UID(expr)`, lines 71-78.  `expr` is the
address of the object (`0` is the null pointer).  `unique_id_break` stands for
the external `rpy_reverse_db_unique_id_break` (line 116): given the state and
the object it returns a `uint64_t` and the state it leaves, or `none` when it
does not return. -/
def RPY_REVDB_REC_UID {H : Type}
    (unique_id_break : World H → Nat → Option (Nat × World H))
    (expr : Nat) (w : World H) : Outcome (World H) :=
  -- uint64_t uid = rpy_revdb.unique_id_seen;
  let uid := w.rpy_revdb.unique_id_seen
  -- if (uid == rpy_revdb.unique_id_break || !expr)
  if uid = w.rpy_revdb.unique_id_break ∨ expr = 0 then
    -- uid = rpy_reverse_db_unique_id_break(expr);
    match unique_id_break w expr with
    | none => ⟨[Call.unique_id_break expr], none⟩
    | some (uid, w) => ⟨[Call.unique_id_break expr], stamp_uid expr (uid % 2 ^ 64) w⟩
  else
    ⟨[], stamp_uid expr uid w⟩

/-- The expansion of `OP_REVDB_STOP_POINT(r)`, lines 80-82.  `stop_point` stands
for the external `rpy_reverse_db_stop_point` (line 108): the state it leaves, or
`none` when it does not return. -/
def OP_REVDB_STOP_POINT {H : Type} (stop_point : World H → Option (World H))
    (w : World H) : Outcome (World H) :=
  -- ++rpy_revdb.stop_point_seen
  let w := { w with rpy_revdb := { w.rpy_revdb with
    stop_point_seen := (w.rpy_revdb.stop_point_seen + 1) % 2 ^ 64 } }
  if w.rpy_revdb.stop_point_seen = w.rpy_revdb.stop_point_break then
    ⟨[Call.stop_point], stop_point w⟩
  else
    ⟨[], some w⟩

/-! ## Sequences of expansions -/

/-- A call site of `RPY_REVDB_EMIT`: `sizeof(_e)` and the wrapped statement. -/
structure EmitSite (H : Type) where
  sizeof_e : Nat
  normal_code : H → H × Nat

/-- The program `RPY_REVDB_EMIT(...); RPY_REVDB_EMIT(...); ...` over the given call
sites: the calls made and, when every expansion completed, the final state with
the values bound to the output variables, in order. -/
def emit_all {H : Type} (T : Channel H) :
    List (EmitSite H) → World H → Outcome (World H × List Nat)
  | [], w => ⟨[], some (w, [])⟩
  | s :: rest, w =>
    let o := RPY_REVDB_EMIT T s.normal_code s.sizeof_e w
    match o.result with
    | none => ⟨o.calls, none⟩
    | some (w1, v) =>
      let o2 := emit_all T rest w1
      ⟨o.calls ++ o2.calls, o2.result.map (fun r => (r.1, v :: r.2))⟩

/-- The values the wrapped statements compute when they run in order from the
host state `h`. -/
def live_values {H : Type} : List (EmitSite H) → H → List Nat
  | [], _ => []
  | s :: rest, h => (s.normal_code h).2 :: live_values rest (s.normal_code h).1

/-- The call site that emits the constant `v` in `n` bytes. -/
def const_site {H : Type} (n v : Nat) : EmitSite H :=
  { sizeof_e := n, normal_code := fun h => (h, v) }

/-- The logical content of the log while recording: what is persisted followed by
the occupied region of the buffer. -/
def pending {H : Type} (w : World H) : List Nat :=
  w.tr.store ++ read_bytes w.mem w.tr.buf_start (w.rpy_revdb.buf_p - w.tr.buf_start)

/-- The bytes still to be consumed while replaying: the not-yet-consumed region of
the buffer followed by the part of the store not loaded yet. -/
def stream {H : Type} (w : World H) : List Nat :=
  read_bytes w.mem w.rpy_revdb.buf_p (w.rpy_revdb.buf_limit - w.rpy_revdb.buf_p) ++
    w.tr.store.drop w.tr.store_pos

/-- The bytes a recording appends for the values `vs` emitted with the sizes `ns`. -/
def log_bytes : List Nat → List Nat → List Nat
  | n :: ns, v :: vs => object_bytes n (v % 256 ^ n) ++ log_bytes ns vs
  | _, _ => []

/-- The states a session passes through between operations: `w0`, and every
state a completed `RPY_REVDB_EMIT` leaves from one of them. -/
inductive Reachable {H : Type} (T : Channel H) (w0 : World H) : World H → Prop where
  | start : Reachable T w0 w0
  | emit (code : H → H × Nat) (sz : Nat) (w w1 : World H) (v : Nat) :
      Reachable T w0 w → (RPY_REVDB_EMIT T code sz w).result = some (w1, v) →
      Reachable T w0 w1

/-- A state with the given mode and cursors, over a buffer of 8 bytes at address
`0`, zeroed memory and the given backing store. -/
def example_state (replay : Bool) (buf_p buf_limit : Nat) (store : List Nat)
    (store_pos : Nat) : World Unit :=
  { rpy_revdb :=
      { replay := replay, buf_p := buf_p, buf_limit := buf_limit,
        stop_point_seen := 0, stop_point_break := 0,
        unique_id_seen := 0, unique_id_break := 0,
        saved_exc0 := 0, saved_exc1 := 0 }
    mem := fun _ => 0
    h_uid := fun _ => 0
    tr := { buf_start := 0, buf_size := 8, store := store, store_pos := store_pos }
    host := () }

/-- The program `RPY_REVDB_REC_UID(o1); RPY_REVDB_REC_UID(o2); ...` over the given
objects: the calls made and, when every expansion completed, the final state with
the ids stamped, in order (each read back from the header of its object with
`OP_REVDB_GET_UNIQUE_ID` right after its expansion). -/
def rec_uid_all {H : Type} (unique_id_break : World H → Nat → Option (Nat × World H)) :
    List Nat → World H → Outcome (World H × List Nat)
  | [], w => ⟨[], some (w, [])⟩
  | obj :: rest, w =>
    let o := RPY_REVDB_REC_UID unique_id_break obj w
    match o.result with
    | none => ⟨o.calls, none⟩
    | some w1 =>
      let o2 := rec_uid_all unique_id_break rest w1
      ⟨o.calls ++ o2.calls,
        o2.result.map (fun r => (r.1, OP_REVDB_GET_UNIQUE_ID obj w1 :: r.2))⟩

/-- The program that expands `OP_REVDB_STOP_POINT` `n` times: for each expansion
that started, in order, the calls it made.  The program ends early if
`rpy_reverse_db_stop_point` does not return. -/
def stop_point_trace {H : Type} (stop_point : World H → Option (World H)) :
    Nat → World H → List (List Call)
  | 0, _ => []
  | n + 1, w =>
    let o := OP_REVDB_STOP_POINT stop_point w
    o.calls :: (match o.result with
      | none => []
      | some w1 => stop_point_trace stop_point n w1)

/-- The state `example_state false 0 8 [] 0` with the given counters. -/
def example_counters (stop_point_seen stop_point_break unique_id_seen unique_id_break : Nat) :
    World Unit :=
  { example_state false 0 8 [] 0 with
    rpy_revdb :=
      { replay := false, buf_p := 0, buf_limit := 8,
        stop_point_seen := stop_point_seen, stop_point_break := stop_point_break,
        unique_id_seen := unique_id_seen, unique_id_break := unique_id_break,
        saved_exc0 := 0, saved_exc1 := 0 } }

end Revdb

/-! # The JIT event logger (jitlog_main.h) -/

namespace Jitlog

/-- The calls to the operating system the logger makes, with what it passes:
`open(path, O_WRONLY | O_CREAT, mode)`, `write(fd, buf, count)` with the `count`
bytes at `buf`, and `close(fd)`. -/
inductive Syscall where
  | sys_open (path : List Char) (mode : Nat)
  | sys_write (fd : Int) (bytes : List Nat)
  | sys_close (fd : Int)
  deriving DecidableEq, Repr

/-- What the C library and the operating system answer, which the code does not
control: the process id, the result of `open` for a path (a descriptor, or `-1`),
whether `malloc` of a size returns a block, and the indeterminate content of a
fresh block (by offset). -/
structure Host where
  getpid : Nat
  open_result : List Char → Int
  malloc_ok : Nat → Bool
  malloc_fill : Nat → Char

/-- The three static variables of jitlog_main.h (lines 7-9), the value of the
environment variable `JITLOG` (`none` when unset), and the system calls issued so
far.  C strings are lists of characters without the terminating NUL; `jitlog_prefix`
is `none` for `NULL` and otherwise the content of the block it points to. -/
structure State where
  jitlog_fd : Int
  jitlog_prefix : Option (List Char)
  jitlog_ready : Int
  JITLOG : Option (List Char)
  sys : List Syscall
  deriving DecidableEq, Repr

/-- The state at program start (lines 7-9) in an environment where `JITLOG` has
the given value. -/
def initial (env : Option (List Char)) : State :=
  { jitlog_fd := -1, jitlog_prefix := none, jitlog_ready := 0, JITLOG := env, sys := [] }

/-- The function `jitlog_enabled`, lines 11-15. -/
def jitlog_enabled (s : State) : Int :=
  s.jitlog_ready

/-- The C function `strchr(s, c)`: the offset of the first `c` in `s`, `none` for
`NULL`. -/
def strchr : List Char → Char → Option Nat
  | [], _ => none
  | x :: xs, c => if x = c then some 0 else (strchr xs c).map (fun i => i + 1)

/-- The C function `strstr(s, pat)`: the offset of the first occurrence of `pat`
in `s`, `none` for `NULL`. -/
def strstr : List Char → List Char → Option Nat
  | [], pat => if pat = [] then some 0 else none
  | x :: xs, pat =>
    if pat.isPrefixOf (x :: xs) then some 0 else (strstr xs pat).map (fun i => i + 1)

/-- The mode `S_IRWXU | S_IRWXG | S_IROTH | S_IXOTH` of line 56. -/
def open_mode : Nat := 0o775

/-- Lines 23-70 of `jitlog_try_init_using_env`: the block run when `JITLOG` is set
to the non-empty string `value`.  `none` when the unchecked `malloc` of line 36
fails, which makes the `memcpy` of line 37 write through a null pointer.  The
`unsetenv` branch of line 65 is the one compiled (`_WIN32` undefined). -/
def init_from_value (os : Host) (value : List Char) (s : State) : Option State :=
  -- char *colon = strchr(filename, ':');
  let colon := strchr value ':'
  -- if (filename[0] == '+') { filename += 1; colon = NULL; }
  let plus := value.head? = some '+'
  let filename := if plus then value.drop 1 else value
  let colon := if plus then none else colon
  -- if (!colon) { } else { ... }
  let split : Option (State × List Char) :=
    match colon with
    | none => some (s, filename)
    | some n =>
      -- jitlog_prefix = malloc(n + 1); memcpy(jitlog_prefix, filename, n);
      -- filename = colon + 1;
      if os.malloc_ok (n + 1) then
        some ({ s with jitlog_prefix := some (filename.take n ++ [os.malloc_fill n]) },
          filename.drop (n + 1))
      else none
  match split with
  | none => none
  | some (s, filename) =>
    -- escape = strstr(filename, "%d");
    let escape := strstr filename ['%', 'd']
    -- if (escape) { newfilename = malloc(strlen(filename) + 32); if (newfilename != NULL) ... }
    let filename :=
      match escape with
      | none => filename
      | some j =>
        if os.malloc_ok (filename.length + 32) then
          -- memcpy(p, filename, escape - filename); sprintf(p, "%ld", (long)getpid());
          -- strcat(p, escape + 2); filename = newfilename;
          filename.take j ++ Nat.toDigits 10 os.getpid ++ filename.drop (j + 2)
        else filename
    -- if (strcmp(filename, "-") != 0) jitlog_fd = open(filename, O_WRONLY | O_CREAT, mode);
    let s :=
      if filename ≠ ['-'] then
        { s with
          jitlog_fd := os.open_result filename
          sys := s.sys ++ [Syscall.sys_open filename open_mode] }
      else s
    -- if (escape) { free(newfilename); } else { unsetenv("JITLOG"); }
    match escape with
    | some _ => some s
    | none => some { s with JITLOG := none }

/-- The function `jitlog_try_init_using_env`, lines 17-72. -/
def jitlog_try_init_using_env (os : Host) (s : State) : Option State :=
  -- if (jitlog_ready) { return; }
  if s.jitlog_ready ≠ 0 then some s
  else
    -- char *filename = getenv("JITLOG"); if (filename && filename[0]) { ... }
    let body : Option State :=
      match s.JITLOG with
      | none => some s
      | some [] => some s
      | some (c :: cs) => init_from_value os (c :: cs) s
    -- jitlog_ready = 1;
    body.map (fun s => { s with jitlog_ready := 1 })

/-- The function `jitlog_init`, lines 74-81; `strdup` returns `NULL` when its
`malloc` fails. -/
def jitlog_init (os : Host) (fd : Int) (pfx : List Char) (s : State) : State :=
  { s with
    jitlog_fd := fd
    jitlog_prefix := if os.malloc_ok (pfx.length + 1) then some pfx else none
    jitlog_ready := 1 }

/-- The function `jitlog_teardown`, lines 83-97.  `free` releases the block and
leaves the pointer variable as it is; which blocks are live is not part of the
state. -/
def jitlog_teardown (s : State) : State :=
  -- jitlog_ready = 0;
  let s := { s with jitlog_ready := 0 }
  -- if (jitlog_fd == -1) { return; }
  if s.jitlog_fd = -1 then s
  else
    -- close(jitlog_fd); jitlog_fd = -1;
    { s with sys := s.sys ++ [Syscall.sys_close s.jitlog_fd], jitlog_fd := -1 }

/-- The conversion of an `int` to `size_t` (64 bits) at the call of `write`. -/
def to_size_t (n : Int) : Nat :=
  if 0 ≤ n then n.toNat else (n + 2 ^ 64).toNat

/-- The function `jitlog_write_marked`, lines 99-108.  `text` gives the bytes at
the pointer `text`, by offset. -/
def jitlog_write_marked (tag : Int) (text : Nat → Nat) (length : Int) (s : State) : State :=
  -- if (!jitlog_ready) { return; }
  if s.jitlog_ready = 0 then s
  else
    -- char header[1]; header[0] = tag;
    let header := [(tag % 256).toNat]
    -- write(jitlog_fd, (const char*)&header, 1); write(jitlog_fd, text, length);
    { s with sys := s.sys ++
        [Syscall.sys_write s.jitlog_fd header,
          Syscall.sys_write s.jitlog_fd ((List.range (to_size_t length)).map text)] }

/-- Lines 41-53 of `jitlog_try_init_using_env`: the name handed on to `open` for
the filename `filename`, after the pid escape. -/
def escaped_name (os : Host) (filename : List Char) : List Char :=
  match strstr filename ['%', 'd'] with
  | none => filename
  | some j =>
    if os.malloc_ok (filename.length + 32) then
      filename.take j ++ Nat.toDigits 10 os.getpid ++ filename.drop (j + 2)
    else filename

/-- Lines 41-69 of `jitlog_try_init_using_env`: what is done with the filename once
the filter is split off: the pid escape, the `open` unless the name is `-`, and
the `unsetenv` unless the filename held a `%d`. -/
def open_filename (os : Host) (filename : List Char) (s : State) : State :=
  let name := escaped_name os filename
  let s :=
    if name ≠ ['-'] then
      { s with
        jitlog_fd := os.open_result name
        sys := s.sys ++ [Syscall.sys_open name open_mode] }
    else s
  match strstr filename ['%', 'd'] with
  | some _ => s
  | none => { s with JITLOG := none }

/-- The filename part of a `JITLOG` value in the words of spec 6 ("a bare filename,
`+filename` (unconditional), or `prefix:filename`"): what follows a leading `+`;
otherwise what follows the first `:`; otherwise the whole value. -/
def filename_part (value : List Char) : List Char :=
  if value.head? = some '+' then value.drop 1
  else if ':' ∈ value then (value.dropWhile (fun c => c ≠ ':')).drop 1
  else value

/-- The filter part of a `JITLOG` value in the words of spec 6: the text before the
first `:` of a value that does not start with `+`; `none` when the value has no
filter. -/
def filter_part (value : List Char) : Option (List Char) :=
  if value.head? = some '+' then none
  else if ':' ∈ value then some (value.takeWhile (fun c => c ≠ ':'))
  else none

/-- What a reader of NUL-terminated strings finds in a block of memory: the
characters before the first NUL, or `none` when the block holds no NUL, so that
the read runs past its end. -/
def c_string (block : List Char) : Option (List Char) :=
  if Char.ofNat 0 ∈ block then some (block.takeWhile (fun c => c ≠ Char.ofNat 0))
  else none

end Jitlog

/-! # Theorems about revdb_include.h -/

namespace Revdb

theorem object_bytes_length (n v : Nat) : (object_bytes n v).length = n := by
  induction n generalizing v with
  | zero => rfl
  | succ n ih => simp [object_bytes, ih]

theorem value_of_object_bytes (n v : Nat) : value_of (object_bytes n v) = v % 256 ^ n := by
  induction n generalizing v with
  | zero => simp [object_bytes, value_of, Nat.mod_one]
  | succ n ih =>
    simp only [object_bytes, value_of, ih]
    rw [pow_succ, Nat.mul_comm (256 ^ n) 256, Nat.mod_mul]

theorem read_bytes_length (mem : Nat → Nat) (p n : Nat) : (read_bytes mem p n).length = n := by
  induction n generalizing p with
  | zero => rfl
  | succ n ih => simp [read_bytes, ih]

theorem read_bytes_add (mem : Nat → Nat) (p n m : Nat) :
    read_bytes mem p (n + m) = read_bytes mem p n ++ read_bytes mem (p + n) m := by
  induction n generalizing p with
  | zero => simp [read_bytes]
  | succ n ih =>
    rw [Nat.succ_add]
    simp only [read_bytes, List.cons_append, ih]
    rw [Nat.add_assoc, Nat.add_comm 1 n]

theorem read_bytes_congr (m1 m2 : Nat → Nat) (p n : Nat)
    (h : ∀ a, p ≤ a → a < p + n → m1 a = m2 a) :
    read_bytes m1 p n = read_bytes m2 p n := by
  induction n generalizing p with
  | zero => rfl
  | succ n ih =>
    simp only [read_bytes]
    rw [h p (Nat.le_refl p) (by omega), ih (p + 1) (fun a h1 h2 => h a (by omega) (by omega))]

theorem memcpy_to_below (mem : Nat → Nat) (p : Nat) (bs : List Nat) (a : Nat) (h : a < p) :
    memcpy_to mem p bs a = mem a := by
  simp [memcpy_to, Nat.not_le.mpr h]

theorem memcpy_to_above (mem : Nat → Nat) (p : Nat) (bs : List Nat) (a : Nat)
    (h : p + bs.length ≤ a) : memcpy_to mem p bs a = mem a := by
  unfold memcpy_to
  split
  · rw [List.getD_eq_default]; omega
  · rfl

theorem read_bytes_memcpy_to_aux (mem : Nat → Nat) (p : Nat) (pre bs : List Nat) :
    read_bytes (memcpy_to mem p (pre ++ bs)) (p + pre.length) bs.length = bs := by
  induction bs generalizing pre with
  | nil => rfl
  | cons b bs ih =>
    simp only [List.length_cons, read_bytes]
    have h1 : memcpy_to mem p (pre ++ b :: bs) (p + pre.length) = b := by
      simp [memcpy_to, List.getD_eq_getElem?_getD, List.getElem_append_right]
    rw [h1]
    have h2 := ih (pre ++ [b])
    simp only [List.append_assoc, List.singleton_append, List.length_append,
      List.length_singleton] at h2
    rw [Nat.add_assoc, h2]

theorem read_bytes_memcpy_to (mem : Nat → Nat) (p : Nat) (bs : List Nat) :
    read_bytes (memcpy_to mem p bs) p bs.length = bs := by
  simpa using read_bytes_memcpy_to_aux mem p [] bs

theorem read_bytes_memcpy_to_before (mem : Nat → Nat) (p : Nat) (bs : List Nat)
    (q n : Nat) (h : q + n ≤ p) :
    read_bytes (memcpy_to mem p bs) q n = read_bytes mem q n :=
  read_bytes_congr _ _ _ _ (fun a _ h2 => memcpy_to_below mem p bs a (by omega))


theorem pending_flush {H : Type} (w : World H) :
    (rpy_reverse_db_flush w).tr.store = pending w ∧
      pending (rpy_reverse_db_flush w) = pending w := by
  simp [rpy_reverse_db_flush, pending, read_bytes]

theorem teardown_record {H : Type} (w : World H) (hrec : w.rpy_revdb.replay = false) :
    ∃ w2, (rpy_reverse_db_teardown w).result = some w2 ∧ w2.tr.store = pending w := by
  unfold rpy_reverse_db_teardown
  rw [hrec]
  simp only [Bool.false_eq_true, if_false]
  split
  · exact ⟨_, rfl, (pending_flush w).1⟩
  · rename_i hc
    refine ⟨w, rfl, ?_⟩
    have e : w.rpy_revdb.buf_p - w.tr.buf_start = 0 := by omega
    simp [pending, e, read_bytes]

theorem emit_record_step {H : Type} (code : H → H × Nat) (sz : Nat) (w : World H)
    (hrec : w.rpy_revdb.replay = false) (hstart : w.tr.buf_start ≤ w.rpy_revdb.buf_p) :
    ∃ w1, (RPY_REVDB_EMIT spec_channel code sz w).result = some (w1, (code w.host).2) ∧
      w1.rpy_revdb.replay = false ∧ w1.tr.buf_start ≤ w1.rpy_revdb.buf_p ∧
      w1.host = (code w.host).1 ∧
      pending w1 = pending w ++ object_bytes sz ((code w.host).2 % 256 ^ sz) := by
  have key : read_bytes
      (memcpy_to w.mem w.rpy_revdb.buf_p (object_bytes sz ((code w.host).2 % 256 ^ sz)))
      w.tr.buf_start (w.rpy_revdb.buf_p + sz - w.tr.buf_start) =
      read_bytes w.mem w.tr.buf_start (w.rpy_revdb.buf_p - w.tr.buf_start) ++
        object_bytes sz ((code w.host).2 % 256 ^ sz) := by
    have e1 : w.rpy_revdb.buf_p + sz - w.tr.buf_start =
        (w.rpy_revdb.buf_p - w.tr.buf_start) + sz := by omega
    have e2 : w.tr.buf_start + (w.rpy_revdb.buf_p - w.tr.buf_start) = w.rpy_revdb.buf_p := by
      omega
    rw [e1, read_bytes_add, e2, read_bytes_memcpy_to_before _ _ _ _ _ (by omega)]
    congr 1
    have e3 := read_bytes_memcpy_to w.mem w.rpy_revdb.buf_p
      (object_bytes sz ((code w.host).2 % 256 ^ sz))
    rw [object_bytes_length] at e3
    exact e3
  unfold RPY_REVDB_EMIT
  simp only [hrec, Bool.not_false, if_true, spec_channel, Option.map_some']
  split
  · refine ⟨_, rfl, ?_, ?_, ?_, ?_⟩
    · simp [rpy_reverse_db_flush, hrec]
    · simp [rpy_reverse_db_flush]
    · simp [rpy_reverse_db_flush]
    · rw [(pending_flush _).2]
      simp only [pending, key, List.append_assoc]
  · refine ⟨_, rfl, ?_, ?_, ?_, ?_⟩
    · simp [hrec]
    · simp only; omega
    · rfl
    · simp only [pending, key, List.append_assoc]

theorem emit_all_record {H : Type} (sites : List (EmitSite H)) (w : World H)
    (hrec : w.rpy_revdb.replay = false) (hstart : w.tr.buf_start ≤ w.rpy_revdb.buf_p) :
    ∃ w1, (emit_all spec_channel sites w).result = some (w1, live_values sites w.host) ∧
      w1.rpy_revdb.replay = false ∧
      pending w1 = pending w ++
        log_bytes (sites.map (fun s => s.sizeof_e)) (live_values sites w.host) := by
  induction sites generalizing w with
  | nil => exact ⟨w, rfl, hrec, by simp [log_bytes]⟩
  | cons s rest ih =>
    obtain ⟨w1, h1, hr1, hs1, hh1, hp1⟩ := emit_record_step s.normal_code s.sizeof_e w hrec hstart
    obtain ⟨w2, h2, hr2, hp2⟩ := ih w1 hr1 hs1
    refine ⟨w2, ?_, hr2, ?_⟩
    · simp only [emit_all, h1, h2, live_values, Option.map_some', hh1]
    · rw [hp2, hp1, hh1]
      simp only [List.map_cons, live_values, log_bytes, List.append_assoc]


theorem read_step {H : Type} (w : World H) (n : Nat) (ob rest : List Nat)
    (hfit : w.rpy_revdb.buf_p + n ≤ w.rpy_revdb.buf_limit)
    (hlen : ob.length = n) (hs : stream w = ob ++ rest) :
    read_bytes w.mem w.rpy_revdb.buf_p n = ob ∧
      stream { w with rpy_revdb := { w.rpy_revdb with buf_p := w.rpy_revdb.buf_p + n } } =
        rest := by
  have e1 : w.rpy_revdb.buf_limit - w.rpy_revdb.buf_p =
      n + (w.rpy_revdb.buf_limit - (w.rpy_revdb.buf_p + n)) := by omega
  unfold stream at hs
  rw [e1, read_bytes_add, List.append_assoc] at hs
  have h2 := List.append_inj hs (by rw [read_bytes_length, hlen])
  exact ⟨h2.1, h2.2⟩

theorem fetch_stream {H : Type} (n : Nat) (w : World H)
    (hlen : n ≤ (stream w).length) :
    ∃ w1, rpy_reverse_db_fetch n w = some (w1, w1.rpy_revdb.buf_p) ∧
      w1.rpy_revdb.replay = w.rpy_revdb.replay ∧
      w1.rpy_revdb.buf_p + n ≤ w1.rpy_revdb.buf_limit ∧
      stream w1 = stream w := by
  unfold stream at hlen
  simp only [List.length_append, read_bytes_length, List.length_drop] at hlen
  unfold rpy_reverse_db_fetch
  simp only [List.length_take, List.length_drop]
  split
  · omega
  · refine ⟨_, rfl, rfl, ?_, ?_⟩
    · simp only; omega
    · simp only [stream]
      have e1 : w.tr.buf_start + (w.rpy_revdb.buf_limit - w.rpy_revdb.buf_p +
          min (max n w.tr.buf_size - (w.rpy_revdb.buf_limit - w.rpy_revdb.buf_p))
            (w.tr.store.length - w.tr.store_pos)) - w.tr.buf_start =
          (read_bytes w.mem w.rpy_revdb.buf_p (w.rpy_revdb.buf_limit - w.rpy_revdb.buf_p) ++
            List.take (max n w.tr.buf_size - (w.rpy_revdb.buf_limit - w.rpy_revdb.buf_p))
              (List.drop w.tr.store_pos w.tr.store)).length := by
        simp only [List.length_append, read_bytes_length, List.length_take, List.length_drop]
        omega
      rw [e1, read_bytes_memcpy_to, List.append_assoc]
      congr 1
      have e2 : List.drop (w.tr.store_pos +
          min (max n w.tr.buf_size - (w.rpy_revdb.buf_limit - w.rpy_revdb.buf_p))
            (w.tr.store.length - w.tr.store_pos)) w.tr.store =
          List.drop (max n w.tr.buf_size - (w.rpy_revdb.buf_limit - w.rpy_revdb.buf_p))
            (List.drop w.tr.store_pos w.tr.store) := by
        rw [List.drop_drop]
        by_cases hc : max n w.tr.buf_size - (w.rpy_revdb.buf_limit - w.rpy_revdb.buf_p) ≤
            w.tr.store.length - w.tr.store_pos
        · rw [Nat.min_eq_left hc, Nat.add_comm]
        · rw [Nat.min_eq_right (by omega), List.drop_of_length_le (by omega),
            List.drop_of_length_le (by omega)]
      rw [e2, List.take_append_drop]


theorem emit_replay_step {H : Type} (code : H → H × Nat) (sz : Nat) (w : World H)
    (ob rest : List Nat) (hrep : w.rpy_revdb.replay = true)
    (hlen : ob.length = sz) (hs : stream w = ob ++ rest) :
    ∃ w1, (RPY_REVDB_EMIT spec_channel code sz w).result = some (w1, value_of ob) ∧
      w1.rpy_revdb.replay = true ∧ stream w1 = rest := by
  have hnot : (!w.rpy_revdb.replay) = false := by rw [hrep]; rfl
  unfold RPY_REVDB_EMIT
  rw [hnot]
  simp only [Bool.false_eq_true, if_false]
  split
  · obtain ⟨w1, hf, hr1, hb1, hs1⟩ := fetch_stream sz w (by rw [hs]; simp [hlen])
    simp only [spec_channel]
    rw [hf]
    obtain ⟨hread, hrest⟩ := read_step w1 sz ob rest hb1 hlen (hs1.trans hs)
    refine ⟨_, ?_, ?_, hrest⟩
    · simp only [hread]
    · simp only [hr1, hrep]
  · rename_i hc
    obtain ⟨hread, hrest⟩ := read_step w sz ob rest (by omega) hlen hs
    refine ⟨_, ?_, ?_, hrest⟩
    · simp only [hread]
    · simp only [hrep]

theorem emit_all_replay {H : Type} (sites : List (EmitSite H)) (vs : List Nat) (w : World H)
    (tail : List Nat) (hrep : w.rpy_revdb.replay = true)
    (hfit : List.Forall₂ (fun s v => v < 256 ^ s.sizeof_e) sites vs)
    (hs : stream w = log_bytes (sites.map (fun s => s.sizeof_e)) vs ++ tail) :
    ∃ w1, (emit_all spec_channel sites w).result = some (w1, vs) ∧ stream w1 = tail := by
  induction hfit generalizing w with
  | nil => exact ⟨w, rfl, by simpa [log_bytes] using hs⟩
  | @cons s v sites vs hv _ ih =>
    simp only [List.map_cons, log_bytes, List.append_assoc] at hs
    obtain ⟨w1, h1, hr1, hs1⟩ := emit_replay_step s.normal_code s.sizeof_e w _ _ hrep
      (object_bytes_length _ _) hs
    obtain ⟨w2, h2, hs2⟩ := ih w1 hr1 hs1
    refine ⟨w2, ?_, hs2⟩
    simp only [emit_all, h1, h2, Option.map_some', value_of_object_bytes, Nat.mod_mod,
      Nat.mod_eq_of_lt hv]

theorem fits_of_sizes {H K : Type} (sites : List (EmitSite H)) (sites2 : List (EmitSite K))
    (vs : List Nat)
    (hsz : sites2.map (fun s => s.sizeof_e) = sites.map (fun s => s.sizeof_e))
    (hfit : List.Forall₂ (fun s v => v < 256 ^ s.sizeof_e) sites vs) :
    List.Forall₂ (fun s v => v < 256 ^ s.sizeof_e) sites2 vs := by
  have h1 : List.Forall₂ (fun n v => v < 256 ^ n) (sites.map (fun s => s.sizeof_e)) vs :=
    List.forall₂_map_left_iff.mpr hfit
  rw [← hsz] at h1
  exact List.forall₂_map_left_iff.mp h1

/-- C1 (round trip of RPY_REVDB_EMIT).  Take any call sites `sites`, whose wrapped
statements compute the values `live_values sites host`, each fitting the width of
its site, and any buffer address and capacity `cap`.  Recording them from the
set-up state completes and binds those values; the teardown completes; and
replaying any call sites `sites2` of the same widths (their wrapped statements
are arbitrary), with any buffer address and capacity `cap2`, against the store the
recording left, completes and binds exactly the same values, in order.  The
transport is `spec_channel`, the flush and fetch of spec 4.3. -/
theorem emit_round_trip {H K : Type} (sites : List (EmitSite H)) (start cap : Nat)
    (mem h_uid : Nat → Nat) (host : H)
    (hfit : List.Forall₂ (fun s v => v < 256 ^ s.sizeof_e) sites (live_values sites host))
    (sites2 : List (EmitSite K)) (start2 cap2 : Nat) (mem2 h_uid2 : Nat → Nat) (host2 : K)
    (hsz : sites2.map (fun s => s.sizeof_e) = sites.map (fun s => s.sizeof_e)) :
    ∃ w1 w2 w3,
      (emit_all spec_channel sites (setup_record start cap mem h_uid host)).result =
        some (w1, live_values sites host) ∧
      (rpy_reverse_db_teardown w1).result = some w2 ∧
      (emit_all spec_channel sites2
        (setup_replay start2 cap2 w2.tr.store mem2 h_uid2 host2)).result =
        some (w3, live_values sites host) := by
  obtain ⟨w1, h1, hr1, hp1⟩ := emit_all_record sites (setup_record start cap mem h_uid host)
    rfl (Nat.le_refl _)
  obtain ⟨w2, ht, hst⟩ := teardown_record w1 hr1
  have hstore : w2.tr.store =
      log_bytes (sites.map (fun s => s.sizeof_e)) (live_values sites host) := by
    rw [hst, hp1]
    simp [pending, setup_record, read_bytes]
  obtain ⟨w3, h3, _⟩ := emit_all_replay sites2 (live_values sites host)
    (setup_replay start2 cap2 w2.tr.store mem2 h_uid2 host2) [] rfl
    (fits_of_sizes sites sites2 _ hsz hfit)
    (by rw [hsz, hstore]; simp [stream, setup_replay, read_bytes])
  exact ⟨w1, w2, w3, h1, ht, h3⟩

/-- Witness for C1: the values 7, 42 and 5, four bytes each, recorded through a
buffer of 8 bytes and replayed through a buffer of 4 bytes. -/
theorem emit_round_trip_witness :
    ∃ w1 w2 w3,
      (emit_all spec_channel [const_site 4 7, const_site 4 42, const_site 4 5]
        (setup_record 0 8 (fun _ => 0) (fun _ => 0) ())).result = some (w1, [7, 42, 5]) ∧
      (rpy_reverse_db_teardown w1).result = some w2 ∧
      (emit_all spec_channel [const_site 4 0, const_site 4 0, const_site 4 0]
        (setup_replay 100 4 w2.tr.store (fun _ => 0) (fun _ => 0) ())).result =
        some (w3, [7, 42, 5]) :=
  emit_round_trip [const_site 4 7, const_site 4 42, const_site 4 5] 0 8
    (fun _ => 0) (fun _ => 0) ()
    (by simp [live_values, const_site])
    [const_site 4 0, const_site 4 0, const_site 4 0] 100 4 (fun _ => 0) (fun _ => 0) ()
    (by simp [const_site])

theorem fetch_frame {H : Type} (n : Nat) (w w1 : World H) (p : Nat)
    (h : rpy_reverse_db_fetch n w = some (w1, p)) :
    w1.host = w.host ∧ w1.rpy_revdb.replay = w.rpy_revdb.replay ∧
      w1.tr.buf_start = w.tr.buf_start ∧ p = w.tr.buf_start ∧
      w1.rpy_revdb.buf_p = w.tr.buf_start ∧ p + n ≤ w1.rpy_revdb.buf_limit := by
  unfold rpy_reverse_db_fetch at h
  simp only at h
  split at h
  · cases h
  · rename_i hc
    simp only [Option.some.injEq, Prod.mk.injEq] at h
    obtain ⟨h1, h2⟩ := h
    subst h1
    subst h2
    refine ⟨rfl, rfl, rfl, rfl, rfl, ?_⟩
    simp only
    omega

/-! ## C2: the replay branch ignores the wrapped statement -/

/-- C2 (replay does not evaluate normal_code).  In replay mode, for any transport
functions, two expansions that differ only in the wrapped statement make the same
calls, bind the same value and leave the same state.  When the value fits below
`buf_limit` the value bound is the one stored in the `sz` bytes at the old `buf_p`
and only `buf_p` changes, so that the host program is untouched; otherwise the
expansion fails exactly when `rpy_reverse_db_fetch` does, and else the value bound
is the one stored in the `sz` bytes at the pointer fetch returned, in the state
fetch left, of which only `buf_p` changes. -/
theorem emit_replay_ignores_normal_code {H : Type} (T : Channel H)
    (code1 code2 : H → H × Nat) (sz : Nat)
    (w : World H) (hrep : w.rpy_revdb.replay = true) :
    RPY_REVDB_EMIT T code1 sz w = RPY_REVDB_EMIT T code2 sz w ∧
    (w.rpy_revdb.buf_p + sz ≤ w.rpy_revdb.buf_limit →
      (RPY_REVDB_EMIT T code1 sz w).result =
        some ({ w with rpy_revdb := { w.rpy_revdb with buf_p := w.rpy_revdb.buf_p + sz } },
          value_of (read_bytes w.mem w.rpy_revdb.buf_p sz))) ∧
    (w.rpy_revdb.buf_limit < w.rpy_revdb.buf_p + sz →
      (RPY_REVDB_EMIT T code1 sz w).result =
        (T.fetch sz w).map (fun r =>
          ({ r.1 with rpy_revdb := { r.1.rpy_revdb with buf_p := r.2 + sz } },
            value_of (read_bytes r.1.mem r.2 sz)))) := by
  have hnot : (!w.rpy_revdb.replay) = false := by rw [hrep]; rfl
  refine ⟨?_, ?_, ?_⟩
  · unfold RPY_REVDB_EMIT
    rw [hnot]
    simp only [Bool.false_eq_true, if_false]
  · intro hle
    unfold RPY_REVDB_EMIT
    rw [hnot]
    simp only [Bool.false_eq_true, if_false]
    rw [if_neg (by omega)]
  · intro hlt
    unfold RPY_REVDB_EMIT
    rw [hnot]
    simp only [Bool.false_eq_true, if_false]
    rw [if_pos (by omega)]
    cases hf : T.fetch sz w with
    | none => rfl
    | some r => rfl

/-- Witness for C2: a replay session over a store holding the four bytes of the
value 7, with an empty buffer and the transport of the spec; the wrapped
statements would yield 1 and 2 and change the host differently. -/
theorem emit_replay_ignores_normal_code_witness :
    (setup_replay 0 4 [7, 0, 0, 0] (fun _ => 0) (fun _ => 0) (0 : Nat)).rpy_revdb.replay = true ∧
    RPY_REVDB_EMIT spec_channel (fun h => (h + 1, 1)) 4
        (setup_replay 0 4 [7, 0, 0, 0] (fun _ => 0) (fun _ => 0) (0 : Nat)) =
      RPY_REVDB_EMIT spec_channel (fun h => (h + 5, 2)) 4
        (setup_replay 0 4 [7, 0, 0, 0] (fun _ => 0) (fun _ => 0) (0 : Nat)) ∧
    (RPY_REVDB_EMIT spec_channel (fun h => (h + 1, 1)) 4
        (setup_replay 0 4 [7, 0, 0, 0] (fun _ => 0) (fun _ => 0) (0 : Nat))).result.map
      (fun r => (r.2, r.1.host)) = some (7, 0) :=
  ⟨rfl,
    (emit_replay_ignores_normal_code spec_channel (fun h => (h + 1, 1)) (fun h => (h + 5, 2)) 4
      (setup_replay 0 4 [7, 0, 0, 0] (fun _ => 0) (fun _ => 0) (0 : Nat)) rfl).1,
    by decide⟩

/-! ## C3: an emit that exactly fills the remaining space -/

theorem emit_calls {H : Type} (T : Channel H) (code : H → H × Nat) (sz : Nat) (w : World H) :
    (RPY_REVDB_EMIT T code sz w).calls =
      if w.rpy_revdb.buf_limit < w.rpy_revdb.buf_p + sz then
        [if w.rpy_revdb.replay then Call.fetch sz else Call.flush]
      else [] := by
  unfold RPY_REVDB_EMIT
  cases hrep : w.rpy_revdb.replay
  · simp only [Bool.not_false, if_true, gt_iff_lt, Bool.false_eq_true, if_false]
    split <;> rfl
  · simp only [Bool.not_true, Bool.false_eq_true, if_false, gt_iff_lt, if_true]
    split
    · cases hf : T.fetch sz w with
      | none => rfl
      | some r => rfl
    · rfl

/-- C3, counterexample.  In a recording state and in a replaying state whose
remaining space `buf_limit - buf_p` is 4, emitting a 4-byte value completes and
calls neither `rpy_reverse_db_flush` nor `rpy_reverse_db_fetch`: zero calls, where
the claim has exactly one. -/
theorem emit_boundary_counterexample :
    ((example_state false 4 8 [] 0).rpy_revdb.buf_limit -
        (example_state false 4 8 [] 0).rpy_revdb.buf_p = 4 ∧
      (RPY_REVDB_EMIT spec_channel (fun h => (h, 7)) 4
        (example_state false 4 8 [] 0)).calls = [] ∧
      (RPY_REVDB_EMIT spec_channel (fun h => (h, 7)) 4
        (example_state false 4 8 [] 0)).result.map (fun r => r.2) = some 7) ∧
    ((example_state true 4 8 [1, 0, 0, 0, 0, 0, 0, 0] 8).rpy_revdb.buf_limit -
        (example_state true 4 8 [1, 0, 0, 0, 0, 0, 0, 0] 8).rpy_revdb.buf_p = 4 ∧
      (RPY_REVDB_EMIT spec_channel (fun h => (h, 7)) 4
        (example_state true 4 8 [1, 0, 0, 0, 0, 0, 0, 0] 8)).calls = [] ∧
      (RPY_REVDB_EMIT spec_channel (fun h => (h, 7)) 4
        (example_state true 4 8 [1, 0, 0, 0, 0, 0, 0, 0] 8)).result.map
        (fun r => r.2) = some 0) := by
  decide

/-- C3, amended.  When the size of the value equals the remaining space
(`buf_p + sz = buf_limit`), one expansion calls neither flush nor fetch, in
either mode and for any transport functions.  From the same state any larger
value, `sz + k + 1` bytes, makes the expansion call exactly one function:
`rpy_reverse_db_flush` when recording, `rpy_reverse_db_fetch` with that size when
replaying. -/
theorem emit_boundary_calls {H : Type} (T : Channel H) (code : H → H × Nat) (sz : Nat)
    (w : World H) (h : w.rpy_revdb.buf_p + sz = w.rpy_revdb.buf_limit) :
    (RPY_REVDB_EMIT T code sz w).calls = [] ∧
    ∀ k, (RPY_REVDB_EMIT T code (sz + k + 1) w).calls =
      [if w.rpy_revdb.replay then Call.fetch (sz + k + 1) else Call.flush] := by
  constructor
  · rw [emit_calls, if_neg (by omega)]
  · intro k
    rw [emit_calls, if_pos (by omega)]

/-- Witness for C3, amended: a recording state with 4 bytes left and a 4-byte
value; a 5-byte value from the same state flushes once. -/
theorem emit_boundary_calls_witness :
    (example_state false 4 8 [] 0).rpy_revdb.buf_p + 4 =
      (example_state false 4 8 [] 0).rpy_revdb.buf_limit ∧
    (RPY_REVDB_EMIT spec_channel (fun h => (h, 7)) 4
      (example_state false 4 8 [] 0)).calls = [] ∧
    (RPY_REVDB_EMIT spec_channel (fun h => (h, 7)) 5
      (example_state false 4 8 [] 0)).calls = [Call.flush] :=
  ⟨rfl,
    (emit_boundary_calls spec_channel (fun h => (h, 7)) 4 (example_state false 4 8 [] 0) rfl).1,
    (emit_boundary_calls spec_channel (fun h => (h, 7)) 4 (example_state false 4 8 [] 0) rfl).2 0⟩

/-! ## C4: the cursor never passes the limit -/

theorem emit_preserves_bounds {H : Type} (T : Channel H)
    (hflush : ∀ w w1, T.flush w = some w1 →
      w1.rpy_revdb.buf_p = w1.tr.buf_start ∧ w1.tr.buf_start = w.tr.buf_start ∧
        w1.rpy_revdb.buf_limit = w.rpy_revdb.buf_limit)
    (hfetch : ∀ n w w1 p, T.fetch n w = some (w1, p) →
      w1.tr.buf_start ≤ p ∧ p + n ≤ w1.rpy_revdb.buf_limit)
    (code : H → H × Nat) (sz : Nat) (w w1 : World H) (v : Nat)
    (h0 : w.tr.buf_start ≤ w.rpy_revdb.buf_limit)
    (hres : (RPY_REVDB_EMIT T code sz w).result = some (w1, v)) :
    w1.tr.buf_start ≤ w1.rpy_revdb.buf_limit ∧ w1.rpy_revdb.buf_p ≤ w1.rpy_revdb.buf_limit := by
  unfold RPY_REVDB_EMIT at hres
  cases hrep : w.rpy_revdb.replay
  · simp only [hrep, Bool.not_false, if_true] at hres
    split at hres
    · simp only [Option.map_eq_some', Prod.mk.injEq] at hres
      obtain ⟨w2, hf, h2, _⟩ := hres
      obtain ⟨ha, hb, hc⟩ := hflush _ _ hf
      simp only at hb hc
      rw [← h2]
      constructor <;> omega
    · rename_i hc
      simp only [Option.some.injEq, Prod.mk.injEq] at hres
      rw [← hres.1]
      simp only [gt_iff_lt, not_lt] at hc
      exact ⟨h0, hc⟩
  · simp only [hrep, Bool.not_true, Bool.false_eq_true, if_false] at hres
    split at hres
    · cases hf : T.fetch sz w with
      | none => rw [hf] at hres; cases hres
      | some r =>
        obtain ⟨r1, r2⟩ := r
        rw [hf] at hres
        simp only [Option.some.injEq, Prod.mk.injEq] at hres
        obtain ⟨ha, hb⟩ := hfetch sz w r1 r2 hf
        rw [← hres.1]
        simp only
        constructor <;> omega
    · rename_i hc
      simp only [Option.some.injEq, Prod.mk.injEq] at hres
      rw [← hres.1]
      simp only [gt_iff_lt, not_lt] at hc
      exact ⟨h0, hc⟩

/-- C4 (buffer invariant).  Let `rpy_reverse_db_flush` reset `buf_p` to the buffer
start (leaving the start and `buf_limit` as they are) and let
`rpy_reverse_db_fetch(n)` return a pointer `p` into the buffer and leave a limit
with `p + n ≤ buf_limit`.  Then from a set-up state, whose buffer start and cursor
are at or below `buf_limit`, every state reached by completed expansions of
`RPY_REVDB_EMIT`, in either mode and with any wrapped statements and sizes,
satisfies `buf_p ≤ buf_limit`. -/
theorem emit_buf_p_le_buf_limit {H : Type} (T : Channel H) (w0 w : World H)
    (hflush : ∀ w w1, T.flush w = some w1 →
      w1.rpy_revdb.buf_p = w1.tr.buf_start ∧ w1.tr.buf_start = w.tr.buf_start ∧
        w1.rpy_revdb.buf_limit = w.rpy_revdb.buf_limit)
    (hfetch : ∀ n w w1 p, T.fetch n w = some (w1, p) →
      w1.tr.buf_start ≤ p ∧ p + n ≤ w1.rpy_revdb.buf_limit)
    (h0 : w0.tr.buf_start ≤ w0.rpy_revdb.buf_limit)
    (h1 : w0.rpy_revdb.buf_p ≤ w0.rpy_revdb.buf_limit)
    (hr : Reachable T w0 w) :
    w.rpy_revdb.buf_p ≤ w.rpy_revdb.buf_limit := by
  have key : w.tr.buf_start ≤ w.rpy_revdb.buf_limit ∧
      w.rpy_revdb.buf_p ≤ w.rpy_revdb.buf_limit := by
    induction hr with
    | start => exact ⟨h0, h1⟩
    | emit code sz wa wb v _ hres ih =>
      exact emit_preserves_bounds T hflush hfetch code sz wa wb v ih.1 hres
  exact key.2

/-- Witness for C4: the transport of the spec, a recording state with 4 of its 8
bytes in use, and the state after emitting an 8-byte value from it (the expansion
flushes). -/
theorem emit_buf_p_le_buf_limit_witness :
    (example_state false 4 8 [] 0).tr.buf_start ≤
      (example_state false 4 8 [] 0).rpy_revdb.buf_limit ∧
    (example_state false 4 8 [] 0).rpy_revdb.buf_p ≤
      (example_state false 4 8 [] 0).rpy_revdb.buf_limit ∧
    ∃ w v, (RPY_REVDB_EMIT spec_channel (fun h => (h, 9)) 8
        (example_state false 4 8 [] 0)).result = some (w, v) ∧
      w.rpy_revdb.buf_p ≤ w.rpy_revdb.buf_limit :=
  ⟨by decide, by decide, _, _, rfl,
    emit_buf_p_le_buf_limit spec_channel (example_state false 4 8 [] 0) _
      (fun w w1 h => by
        simp only [spec_channel, Option.some.injEq] at h
        rw [← h]
        exact ⟨rfl, rfl, rfl⟩)
      (fun n w w1 p h => by
        obtain ⟨_, _, hs, hp, _, hl⟩ := fetch_frame n w w1 p h
        exact ⟨by omega, hl⟩)
      (by decide) (by decide)
      (Reachable.emit (fun h => (h, 9)) 8 (example_state false 4 8 [] 0) _ 9
        Reachable.start rfl)⟩

/-! ## C5: the record branch writes, then flushes -/

/-- C5, counterexample.  A recording state with a full buffer (`buf_p = buf_limit
= 8`, buffer at address 0, zeroed memory, empty store) and a 4-byte value 42, so
that `buf_p + 4 > buf_limit`; the transport is the one of the spec.  The expansion
completes with one flush, and afterwards the byte at address 8, which is not below
`buf_limit`, holds 42; the four bytes at the buffer start are still zero; `buf_p`
is 0, not 4; and the store already holds the value after the 8 bytes of the
buffer.  Had the flush come first, the value would be in the first four bytes of
the buffer and not yet in the store. -/
theorem emit_flush_first_counterexample :
    (example_state false 8 8 [] 0).rpy_revdb.buf_limit <
      (example_state false 8 8 [] 0).rpy_revdb.buf_p + 4 ∧
    (example_state false 8 8 [] 0).mem 8 = 0 ∧
    (RPY_REVDB_EMIT spec_channel (fun h => (h, 42)) 4
      (example_state false 8 8 [] 0)).calls = [Call.flush] ∧
    (RPY_REVDB_EMIT spec_channel (fun h => (h, 42)) 4
      (example_state false 8 8 [] 0)).result.map
      (fun r => (r.2, r.1.mem 8, read_bytes r.1.mem 0 4, r.1.rpy_revdb.buf_p, r.1.tr.store)) =
      some (42, 42, [0, 0, 0, 0], 0, [0, 0, 0, 0, 0, 0, 0, 0, 42, 0, 0, 0]) := by
  decide

/-- C5, amended.  In record mode, when `buf_p + sz > buf_limit`, the expansion
makes exactly one call, to `rpy_reverse_db_flush`, and makes it on the state
`written` in which the value is already in memory: `written` is the old state with
the `sz` bytes of the value copied to the old `buf_p` (so only addresses in
`[buf_p, buf_p + sz)` can differ from the old memory, and they reach past
`buf_limit`) and with `buf_p` advanced by `sz`.  The expansion completes when the
flush does, with the state the flush leaves.  For the flush of the spec that
state has the occupied region up to `buf_p + sz`, value included, appended to the
store, and `buf_p` back at the buffer start. -/
theorem emit_record_writes_then_flushes {H : Type} (T : Channel H) (code : H → H × Nat)
    (sz : Nat) (w : World H) (hrec : w.rpy_revdb.replay = false)
    (hover : w.rpy_revdb.buf_limit < w.rpy_revdb.buf_p + sz) :
    ∃ written : World H,
      RPY_REVDB_EMIT T code sz w =
        ⟨[Call.flush], (T.flush written).map (fun w1 => (w1, (code w.host).2))⟩ ∧
      written.mem = memcpy_to w.mem w.rpy_revdb.buf_p
        (object_bytes sz ((code w.host).2 % 256 ^ sz)) ∧
      written.rpy_revdb.buf_p = w.rpy_revdb.buf_p + sz ∧
      read_bytes written.mem w.rpy_revdb.buf_p sz =
        object_bytes sz ((code w.host).2 % 256 ^ sz) ∧
      (∀ a, written.mem a ≠ w.mem a → w.rpy_revdb.buf_p ≤ a ∧ a < w.rpy_revdb.buf_p + sz) ∧
      (rpy_reverse_db_flush written).mem = written.mem ∧
      (rpy_reverse_db_flush written).tr.store = w.tr.store ++
        read_bytes written.mem w.tr.buf_start (w.rpy_revdb.buf_p + sz - w.tr.buf_start) ∧
      (rpy_reverse_db_flush written).rpy_revdb.buf_p = w.tr.buf_start := by
  refine ⟨{ w with
      host := (code w.host).1
      mem := memcpy_to w.mem w.rpy_revdb.buf_p (object_bytes sz ((code w.host).2 % 256 ^ sz))
      rpy_revdb := { w.rpy_revdb with buf_p := w.rpy_revdb.buf_p + sz } },
    ?_, rfl, rfl, ?_, ?_, rfl, rfl, rfl⟩
  · unfold RPY_REVDB_EMIT
    rw [hrec]
    simp only [Bool.not_false, if_true]
    rw [if_pos (by simpa using hover)]
  · have e := read_bytes_memcpy_to w.mem w.rpy_revdb.buf_p
      (object_bytes sz ((code w.host).2 % 256 ^ sz))
    rw [object_bytes_length] at e
    exact e
  · intro a ha
    by_contra hc
    apply ha
    by_cases hlt : a < w.rpy_revdb.buf_p
    · exact memcpy_to_below _ _ _ _ hlt
    · exact memcpy_to_above _ _ _ _ (by rw [object_bytes_length]; omega)

/-- Witness for C5, amended: the full recording buffer of the counterexample,
with the transport of the spec. -/
theorem emit_record_writes_then_flushes_witness :
    (example_state false 8 8 [] 0).rpy_revdb.replay = false ∧
    (example_state false 8 8 [] 0).rpy_revdb.buf_limit <
      (example_state false 8 8 [] 0).rpy_revdb.buf_p + 4 ∧
    ∃ written : World Unit,
      RPY_REVDB_EMIT spec_channel (fun h => (h, 42)) 4 (example_state false 8 8 [] 0) =
        ⟨[Call.flush], some (rpy_reverse_db_flush written, 42)⟩ ∧
      read_bytes written.mem 8 4 = [42, 0, 0, 0] ∧ written.rpy_revdb.buf_p = 12 :=
  ⟨rfl, by decide,
    (emit_record_writes_then_flushes spec_channel (fun h => (h, 42)) 4
      (example_state false 8 8 [] 0) rfl (by decide)).elim
      (fun written h => ⟨written, h.1, h.2.2.2.1, h.2.2.1⟩)⟩

/-! ## C6: the ids stamped by RPY_REVDB_REC_UID -/

theorem stamp_uid_some {H : Type} (expr uid : Nat) (w w1 : World H)
    (h : stamp_uid expr uid w = some w1) :
    expr ≠ 0 ∧ w1.h_uid expr = uid ∧
      w1.rpy_revdb.unique_id_seen = (uid + 1) % 2 ^ 64 := by
  unfold stamp_uid at h
  simp only at h
  split at h
  · cases h
  · rename_i hne
    simp only [Option.some.injEq] at h
    subst h
    exact ⟨hne, by simp, rfl⟩

theorem rec_uid_step {H : Type} (cb : World H → Nat → Option (Nat × World H))
    (obj : Nat) (w w1 : World H)
    (hcb : ∀ (w : World H) obj uid w2, w.rpy_revdb.unique_id_seen < 2 ^ 64 →
      cb w obj = some (uid, w2) → w.rpy_revdb.unique_id_seen ≤ uid % 2 ^ 64)
    (hw : w.rpy_revdb.unique_id_seen < 2 ^ 64)
    (h : (RPY_REVDB_REC_UID cb obj w).result = some w1) :
    w.rpy_revdb.unique_id_seen ≤ OP_REVDB_GET_UNIQUE_ID obj w1 ∧
      w1.rpy_revdb.unique_id_seen = (OP_REVDB_GET_UNIQUE_ID obj w1 + 1) % 2 ^ 64 := by
  unfold RPY_REVDB_REC_UID at h
  simp only at h
  unfold OP_REVDB_GET_UNIQUE_ID
  split at h
  · cases hc : cb w obj with
    | none => rw [hc] at h; cases h
    | some r =>
      obtain ⟨uid, w2⟩ := r
      rw [hc] at h
      obtain ⟨_, h2, h3⟩ := stamp_uid_some _ _ _ _ h
      rw [h2, h3]
      exact ⟨hcb w obj uid w2 hw hc, rfl⟩
  · obtain ⟨_, h2, h3⟩ := stamp_uid_some _ _ _ _ h
    rw [h2, h3]
    exact ⟨Nat.le_refl _, rfl⟩

theorem rec_uid_all_bounds {H : Type} (cb : World H → Nat → Option (Nat × World H))
    (hcb : ∀ (w : World H) obj uid w2, w.rpy_revdb.unique_id_seen < 2 ^ 64 →
      cb w obj = some (uid, w2) → w.rpy_revdb.unique_id_seen ≤ uid % 2 ^ 64)
    (objs : List Nat) (w w1 : World H) (ids : List Nat)
    (hw : w.rpy_revdb.unique_id_seen < 2 ^ 64)
    (hrun : (rec_uid_all cb objs w).result = some (w1, ids))
    (hnowrap : ∀ id ∈ ids, id + 1 < 2 ^ 64) :
    (∀ id ∈ ids, w.rpy_revdb.unique_id_seen ≤ id) ∧ List.Pairwise (fun a b => a < b) ids := by
  induction objs generalizing w ids with
  | nil =>
    simp only [rec_uid_all, Option.some.injEq, Prod.mk.injEq] at hrun
    rw [← hrun.2]
    exact ⟨by simp, List.Pairwise.nil⟩
  | cons obj rest ih =>
    simp only [rec_uid_all] at hrun
    cases h1 : (RPY_REVDB_REC_UID cb obj w).result with
    | none => rw [h1] at hrun; cases hrun
    | some wa =>
      rw [h1] at hrun
      simp only at hrun
      cases h2 : (rec_uid_all cb rest wa).result with
      | none => rw [h2] at hrun; cases hrun
      | some r =>
        obtain ⟨wb, ids2⟩ := r
        rw [h2] at hrun
        simp only [Option.map_some', Option.some.injEq, Prod.mk.injEq] at hrun
        obtain ⟨hwb, hids⟩ := hrun
        subst hwb
        subst hids
        obtain ⟨hle, hseen⟩ := rec_uid_step cb obj w wa hcb hw h1
        have hid := hnowrap _ (List.mem_cons_self _ _)
        rw [Nat.mod_eq_of_lt hid] at hseen
        obtain ⟨hb, hp⟩ := ih wa ids2 (by rw [hseen]; exact hid) h2
          (fun id hmem => hnowrap id (List.mem_cons_of_mem _ hmem))
        refine ⟨?_, List.Pairwise.cons ?_ hp⟩
        · intro id hmem
          rcases List.mem_cons.mp hmem with h | h
          · rw [h]; exact hle
          · have := hb id h; omega
        · intro id hmem
          have := hb id hmem; omega

/-- C6, counterexample.  First run: the counter is 4, the break target 5 and
`rpy_reverse_db_unique_id_break` returns 0; the objects at 100 and 200 are
stamped 4 and then 0.  Second run: the counter is `2 ^ 64 - 1` and the callback is
never called; the objects are stamped `2 ^ 64 - 1` and then 0.  Neither sequence
of ids is increasing. -/
theorem rec_uid_monotone_counterexample :
    (rec_uid_all (fun w _ => some (0, w)) [100, 200]
      (example_counters 0 0 4 5)).result.map (fun r => r.2) = some [4, 0] ∧
    (rec_uid_all (fun _ _ => none) [100, 200]
      (example_counters 0 0 (2 ^ 64 - 1) 5)).result.map (fun r => r.2) =
        some [2 ^ 64 - 1, 0] ∧
    (rec_uid_all (fun _ _ => none) [100, 200]
      (example_counters 0 0 (2 ^ 64 - 1) 5)).calls = [] := by
  decide

/-- C6, amended.  Let the counter `unique_id_seen` be a `uint64_t`, and let
`rpy_reverse_db_unique_id_break`, whenever it returns, return an id that is not
below the counter at the time of the call.  Then in every completed sequence of
`RPY_REVDB_REC_UID` expansions in which no id stamped is `2 ^ 64 - 1` (the counter
does not wrap), the ids stamped are strictly increasing in call order; in
particular none repeats. -/
theorem rec_uid_ids_increasing {H : Type} (cb : World H → Nat → Option (Nat × World H))
    (objs : List Nat) (w w1 : World H) (ids : List Nat)
    (hcb : ∀ (w : World H) obj uid w2, w.rpy_revdb.unique_id_seen < 2 ^ 64 →
      cb w obj = some (uid, w2) → w.rpy_revdb.unique_id_seen ≤ uid % 2 ^ 64)
    (hw : w.rpy_revdb.unique_id_seen < 2 ^ 64)
    (hrun : (rec_uid_all cb objs w).result = some (w1, ids))
    (hnowrap : ∀ id ∈ ids, id + 1 < 2 ^ 64) :
    List.Pairwise (fun a b => a < b) ids :=
  (rec_uid_all_bounds cb hcb objs w w1 ids hw hrun hnowrap).2

/-- Witness for C6, amended: the counter is 4, the break target 5, and the
callback returns the counter; three objects are stamped 4, 5 and 6. -/
theorem rec_uid_ids_increasing_witness :
    (rec_uid_all (fun w _ => some (w.rpy_revdb.unique_id_seen, w)) [100, 200, 300]
      (example_counters 0 0 4 5)).result.map (fun r => r.2) = some [4, 5, 6] ∧
    List.Pairwise (fun a b => a < b) [4, 5, 6] :=
  ⟨by decide,
    rec_uid_ids_increasing (fun w _ => some (w.rpy_revdb.unique_id_seen, w)) [100, 200, 300]
      (example_counters 0 0 4 5) _ [4, 5, 6]
      (fun w obj uid w2 hlt h => by
        simp only [Option.some.injEq, Prod.mk.injEq] at h
        rw [← h.1, Nat.mod_eq_of_lt hlt])
      (by decide) rfl (by decide)⟩

/-! ## C7: the calls to rpy_reverse_db_stop_point -/

theorem stop_point_step {H : Type} (cb : World H → Option (World H))
    (hcb : ∀ w : World H, ∃ w1, cb w = some w1 ∧
      w1.rpy_revdb.stop_point_seen = w.rpy_revdb.stop_point_seen ∧
      w1.rpy_revdb.stop_point_break = w.rpy_revdb.stop_point_break)
    (w : World H) :
    (OP_REVDB_STOP_POINT cb w).calls =
        (if (w.rpy_revdb.stop_point_seen + 1) % 2 ^ 64 = w.rpy_revdb.stop_point_break
          then [Call.stop_point] else []) ∧
      ∃ w1, (OP_REVDB_STOP_POINT cb w).result = some w1 ∧
        w1.rpy_revdb.stop_point_seen = (w.rpy_revdb.stop_point_seen + 1) % 2 ^ 64 ∧
        w1.rpy_revdb.stop_point_break = w.rpy_revdb.stop_point_break := by
  unfold OP_REVDB_STOP_POINT
  simp only
  split
  · obtain ⟨w1, h1, h2, h3⟩ := hcb { w with rpy_revdb := { w.rpy_revdb with
      stop_point_seen := (w.rpy_revdb.stop_point_seen + 1) % 2 ^ 64 } }
    exact ⟨rfl, w1, h1, h2, h3⟩
  · exact ⟨rfl, _, rfl, rfl, rfl⟩

theorem stop_point_trace_entries {H : Type} (cb : World H → Option (World H))
    (hcb : ∀ w : World H, ∃ w1, cb w = some w1 ∧
      w1.rpy_revdb.stop_point_seen = w.rpy_revdb.stop_point_seen ∧
      w1.rpy_revdb.stop_point_break = w.rpy_revdb.stop_point_break)
    (n : Nat) (w : World H) :
    (stop_point_trace cb n w).length = n ∧
    ∀ k, k < n → (stop_point_trace cb n w).getD k [] =
      (if (w.rpy_revdb.stop_point_seen + k + 1) % 2 ^ 64 = w.rpy_revdb.stop_point_break
        then [Call.stop_point] else []) := by
  induction n generalizing w with
  | zero => exact ⟨rfl, fun k hk => absurd hk (Nat.not_lt_zero k)⟩
  | succ n ih =>
    obtain ⟨hc, w1, hr, hs, hb⟩ := stop_point_step cb hcb w
    obtain ⟨ih1, ih2⟩ := ih w1
    simp only [stop_point_trace, hr, hc]
    refine ⟨by simp [ih1], ?_⟩
    intro k hk
    cases k with
    | zero => simp
    | succ k =>
      simp only [List.getD_cons_succ]
      rw [ih2 k (by omega), hs, hb]
      have e : ((w.rpy_revdb.stop_point_seen + 1) % 2 ^ 64 + k + 1) % 2 ^ 64 =
          (w.rpy_revdb.stop_point_seen + (k + 1) + 1) % 2 ^ 64 := by omega
      rw [e]

theorem stop_point_trace_flatten {H : Type} (cb : World H → Option (World H))
    (hcb : ∀ w : World H, ∃ w1, cb w = some w1 ∧
      w1.rpy_revdb.stop_point_seen = w.rpy_revdb.stop_point_seen ∧
      w1.rpy_revdb.stop_point_break = w.rpy_revdb.stop_point_break)
    (n : Nat) (w : World H) (hn : n ≤ 2 ^ 64) :
    ((∀ k, k < n →
        (w.rpy_revdb.stop_point_seen + k + 1) % 2 ^ 64 ≠ w.rpy_revdb.stop_point_break) →
      (stop_point_trace cb n w).flatten = []) ∧
    ((∃ k, k < n ∧
        (w.rpy_revdb.stop_point_seen + k + 1) % 2 ^ 64 = w.rpy_revdb.stop_point_break) →
      (stop_point_trace cb n w).flatten = [Call.stop_point]) := by
  induction n generalizing w with
  | zero =>
    exact ⟨fun _ => rfl, fun h => by obtain ⟨k, hk, _⟩ := h; omega⟩
  | succ n ih =>
    obtain ⟨hc, w1, hr, hs, hb⟩ := stop_point_step cb hcb w
    obtain ⟨ih1, ih2⟩ := ih w1 (by omega)
    have shift : ∀ k, (w1.rpy_revdb.stop_point_seen + k + 1) % 2 ^ 64 =
        (w.rpy_revdb.stop_point_seen + (k + 1) + 1) % 2 ^ 64 := by
      intro k; rw [hs]; omega
    simp only [stop_point_trace, hr, hc, List.flatten_cons]
    constructor
    · intro hno
      rw [if_neg (by simpa using hno 0 (by omega)), List.nil_append]
      apply ih1
      intro k hk
      rw [shift, hb]
      exact hno (k + 1) (by omega)
    · intro hex
      by_cases h0 : (w.rpy_revdb.stop_point_seen + 1) % 2 ^ 64 = w.rpy_revdb.stop_point_break
      · rw [if_pos h0, ih1, List.append_nil]
        intro k hk
        rw [shift, hb, ← h0]
        omega
      · rw [if_neg h0, List.nil_append]
        apply ih2
        obtain ⟨k, hk, hcond⟩ := hex
        cases k with
        | zero => exact absurd hcond h0
        | succ k => exact ⟨k, by omega, by rw [shift, hb]; exact hcond⟩

/-- C7, counterexample.  First run: `stop_point_seen` is 0, `stop_point_break` is
5 and the callback changes nothing; in a sequence of three expansions it is never
called.  Second run: same counters, and the callback leaves `stop_point_break`
alone but sets `stop_point_seen` back to 4; in a sequence of seven expansions it
is called on the fifth, the sixth and the seventh. -/
theorem stop_point_once_counterexample :
    stop_point_trace (fun w => some w) 3 (example_counters 0 5 0 0) = [[], [], []] ∧
    stop_point_trace
        (fun w => some { w with rpy_revdb := { w.rpy_revdb with stop_point_seen := 4 } })
        7 (example_counters 0 5 0 0) =
      [[], [], [], [], [Call.stop_point], [Call.stop_point], [Call.stop_point]] := by
  decide

/-- C7, amended.  Let `rpy_reverse_db_stop_point` return and leave both
`stop_point_seen` and `stop_point_break` as they are, and take a sequence of
`n ≤ 2 ^ 64` expansions of `OP_REVDB_STOP_POINT`.  All `n` run; the `k`-th one
(from 0) calls `rpy_reverse_db_stop_point`, once, exactly when `stop_point_seen`
after its increment, `(stop_point_seen + k + 1) mod 2 ^ 64`, equals
`stop_point_break`; if no expansion of the sequence reaches the break value the
callback is never called, and if one does it is called exactly once in the whole
sequence. -/
theorem stop_point_at_most_once {H : Type} (cb : World H → Option (World H))
    (n : Nat) (w : World H)
    (hcb : ∀ w : World H, ∃ w1, cb w = some w1 ∧
      w1.rpy_revdb.stop_point_seen = w.rpy_revdb.stop_point_seen ∧
      w1.rpy_revdb.stop_point_break = w.rpy_revdb.stop_point_break)
    (hn : n ≤ 2 ^ 64) :
    (stop_point_trace cb n w).length = n ∧
    (∀ k, k < n → (stop_point_trace cb n w).getD k [] =
      (if (w.rpy_revdb.stop_point_seen + k + 1) % 2 ^ 64 = w.rpy_revdb.stop_point_break
        then [Call.stop_point] else [])) ∧
    ((∀ k, k < n →
        (w.rpy_revdb.stop_point_seen + k + 1) % 2 ^ 64 ≠ w.rpy_revdb.stop_point_break) →
      (stop_point_trace cb n w).flatten = []) ∧
    ((∃ k, k < n ∧
        (w.rpy_revdb.stop_point_seen + k + 1) % 2 ^ 64 = w.rpy_revdb.stop_point_break) →
      (stop_point_trace cb n w).flatten = [Call.stop_point]) :=
  ⟨(stop_point_trace_entries cb hcb n w).1, (stop_point_trace_entries cb hcb n w).2,
    (stop_point_trace_flatten cb hcb n w hn).1, (stop_point_trace_flatten cb hcb n w hn).2⟩

/-- Witness for C7, amended: `stop_point_seen` is 0, `stop_point_break` is 5 and
the callback changes nothing; of seven expansions only the fifth calls it. -/
theorem stop_point_at_most_once_witness :
    stop_point_trace (fun w => some w) 7 (example_counters 0 5 0 0) =
      [[], [], [], [], [Call.stop_point], [], []] ∧
    (stop_point_trace (fun w => some w) 7 (example_counters 0 5 0 0)).flatten =
      [Call.stop_point] :=
  ⟨by decide,
    (stop_point_at_most_once (fun w => some w) 7 (example_counters 0 5 0 0)
      (fun w => ⟨w, rfl, rfl, rfl⟩) (by decide)).2.2.2 ⟨4, by decide, by decide⟩⟩

/-! ## C13: three 4-byte values through a buffer of 8 bytes -/

theorem emit_replay_cursor {H : Type} (code : H → H × Nat) (sz : Nat) (w w1 : World H) (v : Nat)
    (hrep : w.rpy_revdb.replay = true)
    (hover : w.rpy_revdb.buf_limit < w.rpy_revdb.buf_p + sz)
    (h : (RPY_REVDB_EMIT spec_channel code sz w).result = some (w1, v)) :
    w1.rpy_revdb.buf_p = w.tr.buf_start + sz ∧
      w1.rpy_revdb.buf_limit = w.tr.buf_start +
        (w.rpy_revdb.buf_limit - w.rpy_revdb.buf_p +
          min (max sz w.tr.buf_size - (w.rpy_revdb.buf_limit - w.rpy_revdb.buf_p))
            (w.tr.store.length - w.tr.store_pos)) := by
  have hnot : (!w.rpy_revdb.replay) = false := by rw [hrep]; rfl
  unfold RPY_REVDB_EMIT at h
  rw [hnot] at h
  simp only [Bool.false_eq_true, if_false, gt_iff_lt, if_pos hover, spec_channel] at h
  unfold rpy_reverse_db_fetch at h
  simp only [List.length_take, List.length_drop] at h
  split at h
  · cases h
  · rename_i w2 p2 heq
    split at heq
    · cases heq
    · simp only [Option.some.injEq, Prod.mk.injEq] at heq h
      rw [← h.1, ← heq.1, ← heq.2]
      exact ⟨rfl, rfl⟩

theorem replay_scenario_steps {H : Type} (start : Nat) (mem h_uid : Nat → Nat) (host : H)
    (code1 code2 : H → H × Nat) :
    (RPY_REVDB_EMIT spec_channel code1 4
      (setup_replay start 4 (object_bytes 4 0x00000007 ++ object_bytes 4 0x0000002A)
        mem h_uid host)).calls = [Call.fetch 4] ∧
    ∃ w1, (RPY_REVDB_EMIT spec_channel code1 4
        (setup_replay start 4 (object_bytes 4 0x00000007 ++ object_bytes 4 0x0000002A)
          mem h_uid host)).result = some (w1, 0x00000007) ∧
      (RPY_REVDB_EMIT spec_channel code2 4 w1).calls = [Call.fetch 4] ∧
      ∃ w2, (RPY_REVDB_EMIT spec_channel code2 4 w1).result = some (w2, 0x0000002A) := by
  have hrep : (setup_replay start 4 (object_bytes 4 0x00000007 ++ object_bytes 4 0x0000002A)
      mem h_uid host).rpy_revdb.replay = true := rfl
  obtain ⟨w1, h1, hr1, hs1⟩ := emit_replay_step code1 4
    (setup_replay start 4 (object_bytes 4 0x00000007 ++ object_bytes 4 0x0000002A)
      mem h_uid host) (object_bytes 4 0x00000007) (object_bytes 4 0x0000002A) hrep rfl
    (by simp [stream, setup_replay, read_bytes])
  obtain ⟨w2, h2, _, _⟩ := emit_replay_step code2 4 w1 (object_bytes 4 0x0000002A) [] hr1 rfl
    (by simpa using hs1)
  obtain ⟨hp, hl⟩ := emit_replay_cursor code1 4 _ w1 _ hrep
    (by simp [setup_replay]) h1
  have hl2 : w1.rpy_revdb.buf_limit = start + 4 := by
    rw [hl]; simp [setup_replay, object_bytes]
  have hp2 : w1.rpy_revdb.buf_p = start + 4 := by rw [hp]; rfl
  refine ⟨?_, w1, h1, ?_, w2, h2⟩
  · rw [emit_calls, if_pos (by simp [setup_replay])]
    rfl
  · rw [emit_calls, if_pos (by omega), hr1]
    rfl

theorem emit_replay_result {H : Type} (T : Channel H) (code : H → H × Nat) (sz : Nat)
    (w : World H) (hrep : w.rpy_revdb.replay = true) :
    (w.rpy_revdb.buf_limit < w.rpy_revdb.buf_p + sz →
      (RPY_REVDB_EMIT T code sz w).result =
        (T.fetch sz w).map (fun r =>
          ({ r.1 with rpy_revdb := { r.1.rpy_revdb with buf_p := r.2 + sz } },
            value_of (read_bytes r.1.mem r.2 sz)))) ∧
    (w.rpy_revdb.buf_p + sz ≤ w.rpy_revdb.buf_limit →
      (RPY_REVDB_EMIT T code sz w).result =
        some ({ w with rpy_revdb := { w.rpy_revdb with buf_p := w.rpy_revdb.buf_p + sz } },
          value_of (read_bytes w.mem w.rpy_revdb.buf_p sz))) := by
  have hnot : (!w.rpy_revdb.replay) = false := by rw [hrep]; rfl
  constructor
  · intro hlt
    unfold RPY_REVDB_EMIT
    rw [hnot]
    simp only [Bool.false_eq_true, if_false]
    rw [if_pos (by omega)]
    cases hf : T.fetch sz w with
    | none => rfl
    | some r => rfl
  · intro hle
    unfold RPY_REVDB_EMIT
    rw [hnot]
    simp only [Bool.false_eq_true, if_false]
    rw [if_neg (by omega)]

/-- C14 (replay fetch protocol).  In replay mode, for every state, size `sz` and
transport: when `buf_p + sz > buf_limit` the expansion calls
`rpy_reverse_db_fetch` exactly once, with `expected_size = sz`, and if fetch
returns the pointer `p` it binds the value stored in the `sz` bytes at `p` and
sets `buf_p` to `p + sz`; otherwise it calls nothing, binds the value stored in
the `sz` bytes at the old `buf_p` and advances `buf_p` by `sz`.  In particular,
with the transport of the spec, a buffer of capacity 4 (at any address) and a
store holding the 4-byte values `0x00000007` and `0x0000002A`, the first
expansion yields `0x00000007` through one fetch and the second yields
`0x0000002A` through a second fetch. -/
theorem emit_replay_fetch_protocol {H K : Type} (T : Channel H) (code : H → H × Nat)
    (sz : Nat) (w : World H) (start : Nat) (mem h_uid : Nat → Nat) (host : K)
    (code1 code2 : K → K × Nat) (hrep : w.rpy_revdb.replay = true) :
    (w.rpy_revdb.buf_limit < w.rpy_revdb.buf_p + sz →
      (RPY_REVDB_EMIT T code sz w).calls = [Call.fetch sz] ∧
      (RPY_REVDB_EMIT T code sz w).result =
        (T.fetch sz w).map (fun r =>
          ({ r.1 with rpy_revdb := { r.1.rpy_revdb with buf_p := r.2 + sz } },
            value_of (read_bytes r.1.mem r.2 sz)))) ∧
    (w.rpy_revdb.buf_p + sz ≤ w.rpy_revdb.buf_limit →
      (RPY_REVDB_EMIT T code sz w).calls = [] ∧
      (RPY_REVDB_EMIT T code sz w).result =
        some ({ w with rpy_revdb := { w.rpy_revdb with buf_p := w.rpy_revdb.buf_p + sz } },
          value_of (read_bytes w.mem w.rpy_revdb.buf_p sz))) ∧
    ((RPY_REVDB_EMIT spec_channel code1 4
      (setup_replay start 4 (object_bytes 4 0x00000007 ++ object_bytes 4 0x0000002A)
        mem h_uid host)).calls = [Call.fetch 4] ∧
    ∃ w1, (RPY_REVDB_EMIT spec_channel code1 4
        (setup_replay start 4 (object_bytes 4 0x00000007 ++ object_bytes 4 0x0000002A)
          mem h_uid host)).result = some (w1, 0x00000007) ∧
      (RPY_REVDB_EMIT spec_channel code2 4 w1).calls = [Call.fetch 4] ∧
      ∃ w2, (RPY_REVDB_EMIT spec_channel code2 4 w1).result = some (w2, 0x0000002A)) := by
  refine ⟨?_, ?_, replay_scenario_steps start mem h_uid host code1 code2⟩
  · intro hlt
    refine ⟨?_, (emit_replay_result T code sz w hrep).1 hlt⟩
    rw [emit_calls, if_pos hlt, hrep]
    rfl
  · intro hle
    refine ⟨?_, (emit_replay_result T code sz w hrep).2 hle⟩
    rw [emit_calls, if_neg (by omega)]

/-- Witness for C14: the replay session of the scenario at address 0 over zeroed
memory; its first expansion fetches, as `buf_p + 4 > buf_limit`. -/
theorem emit_replay_fetch_protocol_witness :
    (setup_replay 0 4 [7, 0, 0, 0, 42, 0, 0, 0] (fun _ => 0) (fun _ => 0) ()).rpy_revdb.replay
      = true ∧
    (RPY_REVDB_EMIT spec_channel (fun h => (h, 0)) 4
      (setup_replay 0 4 [7, 0, 0, 0, 42, 0, 0, 0] (fun _ => 0) (fun _ => 0) ())).calls =
        [Call.fetch 4] ∧
    (emit_all spec_channel [const_site 4 0, const_site 4 0]
      (setup_replay 0 4 [7, 0, 0, 0, 42, 0, 0, 0] (fun _ => 0) (fun _ => 0) ())).calls =
        [Call.fetch 4, Call.fetch 4] ∧
    (emit_all spec_channel [const_site 4 0, const_site 4 0]
      (setup_replay 0 4 [7, 0, 0, 0, 42, 0, 0, 0] (fun _ => 0) (fun _ => 0) ())).result.map
        (fun r => r.2) = some [0x00000007, 0x0000002A] :=
  ⟨rfl,
    ((emit_replay_fetch_protocol spec_channel (fun h => (h, 0)) 4
      (setup_replay 0 4 [7, 0, 0, 0, 42, 0, 0, 0] (fun _ => 0) (fun _ => 0) ())
      0 (fun _ => 0) (fun _ => 0) () (fun h => (h, 0)) (fun h => (h, 0)) rfl).1
      (by decide)).1,
    by decide, by decide⟩

/-! ## C15 and C18: one expansion of RPY_REVDB_REC_UID -/

theorem rec_uid_calls {H : Type} (cb : World H → Nat → Option (Nat × World H))
    (expr : Nat) (w : World H) :
    (RPY_REVDB_REC_UID cb expr w).calls =
      (if w.rpy_revdb.unique_id_seen = w.rpy_revdb.unique_id_break ∨ expr = 0
        then [Call.unique_id_break expr] else []) := by
  unfold RPY_REVDB_REC_UID
  simp only
  split
  · cases hc : cb w expr with
    | none => rfl
    | some r => rfl
  · rfl

theorem rec_uid_normal {H : Type} (cb : World H → Nat → Option (Nat × World H))
    (expr : Nat) (w : World H)
    (h : ¬ (w.rpy_revdb.unique_id_seen = w.rpy_revdb.unique_id_break ∨ expr = 0)) :
    (RPY_REVDB_REC_UID cb expr w).result =
      some { w with
        rpy_revdb := { w.rpy_revdb with
          unique_id_seen := (w.rpy_revdb.unique_id_seen + 1) % 2 ^ 64 }
        h_uid := fun x => if x = expr then w.rpy_revdb.unique_id_seen else w.h_uid x } := by
  unfold RPY_REVDB_REC_UID
  simp only [if_neg h, stamp_uid]
  rw [if_neg (fun h0 => h (Or.inr h0))]

/-- C15 (postcondition of RPY_REVDB_REC_UID).  For every state, in record or
replay mode, every object and every callback: the expansion calls
`rpy_reverse_db_unique_id_break`, once and with the object, exactly when
`unique_id_seen == unique_id_break` or the object is null, and otherwise calls
nothing.  When it is not called the expansion completes, the id in the header of
the object is the old `unique_id_seen`, `unique_id_seen` is the old value plus 1
modulo `2 ^ 64`, and `replay`, `stop_point_seen`, `stop_point_break`,
`unique_id_break`, `buf_p`, `buf_limit`, the memory, the transport and the headers
of the other objects are unchanged. -/
theorem rec_uid_postcondition {H : Type} (cb : World H → Nat → Option (Nat × World H))
    (expr : Nat) (w : World H) :
    (RPY_REVDB_REC_UID cb expr w).calls =
      (if w.rpy_revdb.unique_id_seen = w.rpy_revdb.unique_id_break ∨ expr = 0
        then [Call.unique_id_break expr] else []) ∧
    (¬ (w.rpy_revdb.unique_id_seen = w.rpy_revdb.unique_id_break ∨ expr = 0) →
      ∃ w1, (RPY_REVDB_REC_UID cb expr w).result = some w1 ∧
        OP_REVDB_GET_UNIQUE_ID expr w1 = w.rpy_revdb.unique_id_seen ∧
        w1.rpy_revdb.unique_id_seen = (w.rpy_revdb.unique_id_seen + 1) % 2 ^ 64 ∧
        w1.rpy_revdb.replay = w.rpy_revdb.replay ∧
        w1.rpy_revdb.stop_point_seen = w.rpy_revdb.stop_point_seen ∧
        w1.rpy_revdb.stop_point_break = w.rpy_revdb.stop_point_break ∧
        w1.rpy_revdb.unique_id_break = w.rpy_revdb.unique_id_break ∧
        w1.rpy_revdb.buf_p = w.rpy_revdb.buf_p ∧
        w1.rpy_revdb.buf_limit = w.rpy_revdb.buf_limit ∧
        w1.mem = w.mem ∧ w1.tr = w.tr ∧
        ∀ x, x ≠ expr → w1.h_uid x = w.h_uid x) := by
  refine ⟨rec_uid_calls cb expr w, ?_⟩
  intro h
  refine ⟨_, rec_uid_normal cb expr w h, ?_, rfl, rfl, rfl, rfl, rfl, rfl, rfl, rfl, rfl, ?_⟩
  · simp [OP_REVDB_GET_UNIQUE_ID]
  · intro x hx
    simp [hx]

/-- Witness for C15: the counter is 4 and the break target 5; the object at 100
is stamped 4 without a call, in record mode and in replay mode alike, and from a
counter of 5 the callback is called. -/
theorem rec_uid_postcondition_witness :
    (RPY_REVDB_REC_UID (fun w _ => some (9, w)) 100 (example_counters 0 0 4 5)).calls = [] ∧
    (RPY_REVDB_REC_UID (fun w _ => some (9, w)) 100 (example_counters 0 0 5 5)).calls =
      [Call.unique_id_break 100] ∧
    (RPY_REVDB_REC_UID (fun w _ => some (9, w)) 100 (example_counters 0 0 4 5)).result.map
      (fun w1 => (OP_REVDB_GET_UNIQUE_ID 100 w1, w1.rpy_revdb.unique_id_seen)) = some (4, 5) ∧
    (RPY_REVDB_REC_UID (fun w _ => some (9, w)) 100
      (example_state true 0 8 [] 0)).calls = [Call.unique_id_break 100] :=
  ⟨by decide,
    (rec_uid_postcondition (fun w _ => some (9, w)) 100 (example_counters 0 0 5 5)).1,
    by decide, by decide⟩

/-- C18 (stamp and counter stay coupled).  For a non-null object: on the normal
path the expansion completes and stamps the old `unique_id_seen`; on the break
path, when the callback returns `uid`, it completes and stamps `uid` (as a
`uint64_t`); and whenever the expansion completes, on either path,
`OP_REVDB_GET_UNIQUE_ID` of the object returns the id stamped,
`unique_id_seen` is that id plus 1 modulo `2 ^ 64`, and the next expansion, for a
non-null object and off the break path, calls nothing, completes and stamps that
id plus 1 modulo `2 ^ 64`. -/
theorem rec_uid_stamp_coupled {H : Type} (cb : World H → Nat → Option (Nat × World H))
    (obj : Nat) (w : World H) (hobj : obj ≠ 0) :
    (w.rpy_revdb.unique_id_seen ≠ w.rpy_revdb.unique_id_break →
      ∃ w1, (RPY_REVDB_REC_UID cb obj w).result = some w1 ∧
        OP_REVDB_GET_UNIQUE_ID obj w1 = w.rpy_revdb.unique_id_seen) ∧
    (w.rpy_revdb.unique_id_seen = w.rpy_revdb.unique_id_break →
      ∀ uid w2, cb w obj = some (uid, w2) →
        ∃ w1, (RPY_REVDB_REC_UID cb obj w).result = some w1 ∧
          OP_REVDB_GET_UNIQUE_ID obj w1 = uid % 2 ^ 64) ∧
    (∀ w1, (RPY_REVDB_REC_UID cb obj w).result = some w1 →
      w1.rpy_revdb.unique_id_seen = (OP_REVDB_GET_UNIQUE_ID obj w1 + 1) % 2 ^ 64 ∧
      ∀ (cb2 : World H → Nat → Option (Nat × World H)) (obj2 : Nat), obj2 ≠ 0 →
        w1.rpy_revdb.unique_id_seen ≠ w1.rpy_revdb.unique_id_break →
        (RPY_REVDB_REC_UID cb2 obj2 w1).calls = [] ∧
        ∃ w3, (RPY_REVDB_REC_UID cb2 obj2 w1).result = some w3 ∧
          OP_REVDB_GET_UNIQUE_ID obj2 w3 = (OP_REVDB_GET_UNIQUE_ID obj w1 + 1) % 2 ^ 64) := by
  have hstamp : ∀ (uid : Nat) (wa : World H), ∃ w1, stamp_uid obj uid wa = some w1 ∧
      OP_REVDB_GET_UNIQUE_ID obj w1 = uid := by
    intro uid wa
    have e : stamp_uid obj uid wa = some
        { wa with
          rpy_revdb := { wa.rpy_revdb with unique_id_seen := (uid + 1) % 2 ^ 64 }
          h_uid := fun x => if x = obj then uid else wa.h_uid x } := by
      unfold stamp_uid
      simp only [if_neg hobj]
    exact ⟨_, e, by simp [OP_REVDB_GET_UNIQUE_ID]⟩
  refine ⟨?_, ?_, ?_⟩
  · intro hne
    rw [rec_uid_normal cb obj w (by intro h; rcases h with h | h; exact hne h; exact hobj h)]
    exact ⟨_, rfl, by simp [OP_REVDB_GET_UNIQUE_ID]⟩
  · intro heq uid w2 hcb
    unfold RPY_REVDB_REC_UID
    simp only [if_pos (Or.inl heq : _ ∨ obj = 0), hcb]
    exact hstamp _ _
  · intro w1 hres
    have hseen : w1.rpy_revdb.unique_id_seen = (OP_REVDB_GET_UNIQUE_ID obj w1 + 1) % 2 ^ 64 := by
      unfold RPY_REVDB_REC_UID at hres
      simp only at hres
      unfold OP_REVDB_GET_UNIQUE_ID
      split at hres
      · cases hc : cb w obj with
        | none => rw [hc] at hres; cases hres
        | some r =>
          rw [hc] at hres
          obtain ⟨_, h2, h3⟩ := stamp_uid_some _ _ _ _ hres
          rw [h2, h3]
      · obtain ⟨_, h2, h3⟩ := stamp_uid_some _ _ _ _ hres
        rw [h2, h3]
    refine ⟨hseen, ?_⟩
    intro cb2 obj2 hobj2 hne
    have hcond : ¬ (w1.rpy_revdb.unique_id_seen = w1.rpy_revdb.unique_id_break ∨ obj2 = 0) := by
      intro h; rcases h with h | h
      · exact hne h
      · exact hobj2 h
    refine ⟨by rw [rec_uid_calls, if_neg hcond], ?_⟩
    rw [rec_uid_normal cb2 obj2 w1 hcond]
    exact ⟨_, rfl, by simp [OP_REVDB_GET_UNIQUE_ID, hseen]⟩

/-- Witness for C18: the counter is 5, equal to the break target, and the callback
returns 9; the object at 100 is stamped 9, the counter becomes 10, and the next
object, at 200, is stamped 10 without a call. -/
theorem rec_uid_stamp_coupled_witness :
    (100 : Nat) ≠ 0 ∧
    (∃ w1, (RPY_REVDB_REC_UID (fun w _ => some (9, w)) 100
        (example_counters 0 0 5 5)).result = some w1 ∧
      OP_REVDB_GET_UNIQUE_ID 100 w1 = 9 % 2 ^ 64) ∧
    (RPY_REVDB_REC_UID (fun w _ => some (9, w)) 100 (example_counters 0 0 5 5)).result.map
      (fun w1 => (OP_REVDB_GET_UNIQUE_ID 100 w1, w1.rpy_revdb.unique_id_seen,
        (RPY_REVDB_REC_UID (fun _ _ => none) 200 w1).result.map
          (fun w3 => OP_REVDB_GET_UNIQUE_ID 200 w3))) = some (9, 10, some 10) :=
  ⟨by decide,
    (rec_uid_stamp_coupled (fun w _ => some (9, w)) 100 (example_counters 0 0 5 5)
      (by decide)).2.1 rfl 9 _ rfl,
    by decide⟩

end Revdb

/-! # Theorems about jitlog_main.h -/

namespace Jitlog

theorem try_init_ready (os : Host) (s s1 : State)
    (h : jitlog_try_init_using_env os s = some s1) : s1.jitlog_ready ≠ 0 := by
  unfold jitlog_try_init_using_env at h
  split at h
  · rename_i hr
    simp only [Option.some.injEq] at h
    rw [← h]
    exact hr
  · simp only [Option.map_eq_some'] at h
    obtain ⟨s0, _, h2⟩ := h
    rw [← h2]
    exact one_ne_zero

theorem init_from_value_total (os : Host) (value : List Char) (s : State)
    (hm : ∀ n, os.malloc_ok n = true) : ∃ s1, init_from_value os value s = some s1 := by
  unfold init_from_value
  simp only [hm, if_true]
  split
  · rename_i heq
    split at heq <;> cases heq
  · split <;> exact ⟨_, rfl⟩

/-- C8 (logger init idempotence).  For every logger state, environment and
answers of the system, two calls of `jitlog_try_init_using_env` in a row end as
the first call alone does: the same `jitlog_fd`, `jitlog_prefix`, `jitlog_ready`
and `JITLOG`, and no system call added by the second (which may even be given
different answers `os2`).  The first call returns whenever every allocation
succeeds, and then `jitlog_ready` is 1. -/
theorem try_init_twice (os os2 : Host) (s : State) :
    (jitlog_try_init_using_env os s).bind (jitlog_try_init_using_env os2) =
      jitlog_try_init_using_env os s ∧
    ((∀ n, os.malloc_ok n = true) →
      ∃ s1, jitlog_try_init_using_env os s = some s1 ∧ jitlog_enabled s1 ≠ 0 ∧
        jitlog_try_init_using_env os2 s1 = some s1) := by
  have key : ∀ s1, jitlog_try_init_using_env os s = some s1 →
      jitlog_try_init_using_env os2 s1 = some s1 := by
    intro s1 h
    have hr := try_init_ready os s s1 h
    unfold jitlog_try_init_using_env
    rw [if_pos hr]
  constructor
  · cases h : jitlog_try_init_using_env os s with
    | none => rfl
    | some s1 => exact key s1 h
  · intro hm
    have htotal : ∃ s1, jitlog_try_init_using_env os s = some s1 := by
      unfold jitlog_try_init_using_env
      split
      · exact ⟨_, rfl⟩
      · split
        · exact ⟨_, rfl⟩
        · exact ⟨_, rfl⟩
        · obtain ⟨s1, h1⟩ := init_from_value_total os _ s hm
          rw [h1]
          exact ⟨_, rfl⟩
    obtain ⟨s1, h1⟩ := htotal
    exact ⟨s1, h1, try_init_ready os s s1 h1, key s1 h1⟩

/-- Witness for C8: `JITLOG=ab:out.log` at program start; the first call opens
`out.log`, stores the filter, clears the variable and sets the ready flag, and the
second call returns that state. -/
theorem try_init_twice_witness :
    jitlog_try_init_using_env ⟨4242, fun _ => 3, fun _ => true, fun _ => 'X'⟩
        (initial (some ['a', 'b', ':', 'o', 'u', 't', '.', 'l', 'o', 'g'])) =
      some { jitlog_fd := 3, jitlog_prefix := some ['a', 'b', 'X'], jitlog_ready := 1,
             JITLOG := none,
             sys := [Syscall.sys_open ['o', 'u', 't', '.', 'l', 'o', 'g'] 509] } ∧
    (jitlog_try_init_using_env ⟨4242, fun _ => 3, fun _ => true, fun _ => 'X'⟩
        (initial (some ['a', 'b', ':', 'o', 'u', 't', '.', 'l', 'o', 'g']))).bind
      (jitlog_try_init_using_env ⟨4242, fun _ => 3, fun _ => true, fun _ => 'X'⟩) =
    jitlog_try_init_using_env ⟨4242, fun _ => 3, fun _ => true, fun _ => 'X'⟩
        (initial (some ['a', 'b', ':', 'o', 'u', 't', '.', 'l', 'o', 'g'])) :=
  ⟨by decide,
    (try_init_twice ⟨4242, fun _ => 3, fun _ => true, fun _ => 'X'⟩
      ⟨4242, fun _ => 3, fun _ => true, fun _ => 'X'⟩
      (initial (some ['a', 'b', ':', 'o', 'u', 't', '.', 'l', 'o', 'g']))).1⟩

/-- C9 (writes are dropped when not ready).  For every tag, payload and length:
in a state `s` with `jitlog_ready == 0`, as before any initialisation,
`jitlog_write_marked` issues no system call and returns the state unchanged; and
from every state `s2`, `jitlog_teardown` leaves `jitlog_ready == 0`, so that
`jitlog_write_marked` after it issues no system call and changes nothing
either. -/
theorem write_marked_dropped (tag : Int) (text : Nat → Nat) (length : Int) (s s2 : State)
    (h : s.jitlog_ready = 0) :
    jitlog_write_marked tag text length s = s ∧
    (jitlog_teardown s2).jitlog_ready = 0 ∧
    jitlog_write_marked tag text length (jitlog_teardown s2) = jitlog_teardown s2 := by
  have ht : (jitlog_teardown s2).jitlog_ready = 0 := by
    unfold jitlog_teardown
    simp only
    split <;> rfl
  refine ⟨?_, ht, ?_⟩
  · unfold jitlog_write_marked
    rw [if_pos h]
  · unfold jitlog_write_marked
    rw [if_pos ht]

/-- Witness for C9: a write at program start, and a write after the teardown of a
ready logger on descriptor 3 (the only system call is the `close`). -/
theorem write_marked_dropped_witness :
    (initial none).jitlog_ready = 0 ∧
    jitlog_write_marked 65 (fun i => i) 3 (initial none) = initial none ∧
    jitlog_write_marked 65 (fun i => i) 3
        (jitlog_teardown ⟨3, none, 1, none, []⟩) =
      ⟨-1, none, 0, none, [Syscall.sys_close 3]⟩ :=
  ⟨rfl,
    (write_marked_dropped 65 (fun i => i) 3 (initial none) ⟨3, none, 1, none, []⟩ rfl).1,
    (write_marked_dropped 65 (fun i => i) 3 (initial none) ⟨3, none, 1, none, []⟩ rfl).2.2⟩

/-- C10 (record framing).  When the logger is ready, for every tag, payload and
length `≥ 0`, one call of `jitlog_write_marked` issues exactly two system calls,
both writes on `jitlog_fd`: first the single byte `tag mod 256`, then the first
`length` bytes of the payload, in order; nothing else is written and the rest of
the state is unchanged. -/
theorem write_marked_framing (tag : Int) (text : Nat → Nat) (length : Int) (s : State)
    (hready : s.jitlog_ready ≠ 0) (hlen : 0 ≤ length) :
    jitlog_write_marked tag text length s =
      { s with sys := s.sys ++
        [Syscall.sys_write s.jitlog_fd [(tag % 256).toNat],
          Syscall.sys_write s.jitlog_fd ((List.range length.toNat).map text)] } ∧
    (tag % 256).toNat < 256 ∧
    ((List.range length.toNat).map text).length = length.toNat := by
  refine ⟨?_, ?_, by simp⟩
  · unfold jitlog_write_marked
    rw [if_neg hready]
    simp only [to_size_t, if_pos hlen]
  · have h1 : tag % 256 < 256 := Int.emod_lt_of_pos tag (by decide)
    have h2 : 0 ≤ tag % 256 := Int.emod_nonneg tag (by decide)
    omega

/-- Witness for C10: a ready logger on descriptor 3, the tag `0x141` (which
truncates to `0x41`) and three bytes of a payload `10, 11, 12, ...`. -/
theorem write_marked_framing_witness :
    (⟨3, none, 1, none, []⟩ : State).jitlog_ready ≠ 0 ∧ (0 : Int) ≤ 3 ∧
    jitlog_write_marked 0x141 (fun i => i + 10) 3 ⟨3, none, 1, none, []⟩ =
      ⟨3, none, 1, none, [Syscall.sys_write 3 [0x41], Syscall.sys_write 3 [10, 11, 12]]⟩ :=
  ⟨by decide, by decide,
    (write_marked_framing 0x141 (fun i => i + 10) 3 ⟨3, none, 1, none, []⟩
      (by decide) (by decide)).1⟩

/-! ## The string functions -/

theorem strchr_eq_none_iff (s : List Char) (c : Char) : strchr s c = none ↔ c ∉ s := by
  induction s with
  | nil => simp [strchr]
  | cons x xs ih =>
    unfold strchr
    by_cases h : x = c
    · simp [h]
    · simp only [if_neg h, Option.map_eq_none', ih, List.mem_cons, not_or]
      exact ⟨fun h2 => ⟨fun h3 => h h3.symm, h2⟩, fun h2 => h2.2⟩

theorem strchr_some (s : List Char) (c : Char) (n : Nat) (h : strchr s c = some n) :
    s.take n = s.takeWhile (fun x => x ≠ c) ∧
      s.drop (n + 1) = (s.dropWhile (fun x => x ≠ c)).drop 1 ∧ c ∈ s ∧
      (s.takeWhile (fun x => x ≠ c)).length = n := by
  induction s generalizing n with
  | nil => simp [strchr] at h
  | cons x xs ih =>
    unfold strchr at h
    by_cases hx : x = c
    · rw [if_pos hx] at h
      simp only [Option.some.injEq] at h
      subst h
      simp [hx]
    · rw [if_neg hx] at h
      simp only [Option.map_eq_some'] at h
      obtain ⟨m, hm, hn⟩ := h
      subst hn
      obtain ⟨h1, h2, h3, h4⟩ := ih m hm
      simp only [ne_eq, decide_not] at h1 h2 h4 ⊢
      simp [hx, h1, h2, h3, h4]

theorem strstr_eq_none_iff (s pat : List Char) : strstr s pat = none ↔ ¬ pat <:+: s := by
  induction s with
  | nil =>
    unfold strstr
    by_cases h : pat = []
    · simp [h]
    · simp [h]
  | cons x xs ih =>
    unfold strstr
    by_cases h : pat.isPrefixOf (x :: xs) = true
    · rw [if_pos h]
      simp only [reduceCtorEq, false_iff, not_not]
      exact (List.isPrefixOf_iff_prefix.mp h).isInfix
    · rw [if_neg h, Option.map_eq_none', ih, List.infix_cons_iff]
      have h2 : ¬ pat <+: x :: xs := fun hp => h (List.isPrefixOf_iff_prefix.mpr hp)
      exact ⟨fun h3 h4 => h4.elim h2 h3, fun h3 h4 => h3 (Or.inr h4)⟩

theorem strstr_first (pre post : List Char) (h : ¬ ['%', 'd'] <:+: pre) :
    strstr (pre ++ '%' :: 'd' :: post) ['%', 'd'] = some pre.length := by
  induction pre with
  | nil => simp [strstr]
  | cons x xs ih =>
    have hxs : ¬ ['%', 'd'] <:+: xs := fun h2 => h (List.infix_cons_iff.mpr (Or.inr h2))
    have hpre : ¬ ['%', 'd'] <+: x :: xs := fun h2 => h h2.isInfix
    have hnot : ¬ (['%', 'd'].isPrefixOf (x :: (xs ++ '%' :: 'd' :: post)) = true) := by
      rw [List.isPrefixOf_iff_prefix]
      intro hp
      cases xs with
      | nil =>
        obtain ⟨t, ht⟩ := hp
        simp at ht
      | cons y ys =>
        apply hpre
        obtain ⟨t, ht⟩ := hp
        simp only [List.cons_append, List.nil_append, List.cons.injEq] at ht
        exact ⟨ys, by rw [← ht.1, ← ht.2.1]; rfl⟩
    show strstr (x :: (xs ++ '%' :: 'd' :: post)) ['%', 'd'] = some (xs.length + 1)
    unfold strstr
    rw [if_neg hnot, ih hxs]
    rfl

theorem digitChar_ne_dash (m : Nat) (h : m < 10) : Nat.digitChar m ≠ '-' := by
  interval_cases m <;> decide

theorem toDigitsCore_no_dash (fuel n : Nat) (ds : List Char) (h : '-' ∉ ds) :
    '-' ∉ Nat.toDigitsCore 10 fuel n ds := by
  induction fuel generalizing n ds with
  | zero => simpa [Nat.toDigitsCore] using h
  | succ f ih =>
    unfold Nat.toDigitsCore
    have hd : '-' ∉ Nat.digitChar (n % 10) :: ds := by
      simp only [List.mem_cons, not_or]
      exact ⟨fun e => digitChar_ne_dash _ (Nat.mod_lt n (by decide)) e.symm, h⟩
    simp only
    split
    · exact hd
    · exact ih _ _ hd

theorem toDigitsCore_ne_nil (fuel n : Nat) (ds : List Char) (h : ds ≠ [] ∨ 0 < fuel) :
    Nat.toDigitsCore 10 fuel n ds ≠ [] := by
  induction fuel generalizing n ds with
  | zero =>
    rcases h with h | h
    · simpa [Nat.toDigitsCore] using h
    · omega
  | succ f ih =>
    unfold Nat.toDigitsCore
    simp only
    split
    · simp
    · exact ih _ _ (Or.inl (by simp))

theorem escaped_ne_dash (pre post : List Char) (pid : Nat) :
    pre ++ Nat.toDigits 10 pid ++ post ≠ ['-'] := by
  intro h
  have h1 : Nat.toDigits 10 pid ≠ [] := toDigitsCore_ne_nil _ _ _ (Or.inr (by omega))
  have h2 : '-' ∉ Nat.toDigits 10 pid := toDigitsCore_no_dash _ _ _ (by simp)
  obtain ⟨c, cs, hc⟩ := List.exists_cons_of_ne_nil h1
  have h3 : c ∈ pre ++ Nat.toDigits 10 pid ++ post := by simp [hc]
  rw [h] at h3
  simp only [List.mem_singleton] at h3
  apply h2
  rw [hc, h3]
  exact List.mem_cons_self _ _

/-! ## The split of the value -/

theorem init_from_value_eq (os : Host) (value : List Char) (s : State) :
    init_from_value os value s =
      match filter_part value with
      | none => some (open_filename os (filename_part value) s)
      | some p =>
        if os.malloc_ok (p.length + 1) then
          some (open_filename os (filename_part value)
            { s with jitlog_prefix := some (p ++ [os.malloc_fill p.length]) })
        else none := by
  have tail : ∀ (filename : List Char) (s : State),
      (match strstr filename ['%', 'd'] with
        | some _ => some (if escaped_name os filename ≠ ['-'] then
            { s with
              jitlog_fd := os.open_result (escaped_name os filename)
              sys := s.sys ++ [Syscall.sys_open (escaped_name os filename) open_mode] }
            else s)
        | none => some { (if escaped_name os filename ≠ ['-'] then
            { s with
              jitlog_fd := os.open_result (escaped_name os filename)
              sys := s.sys ++ [Syscall.sys_open (escaped_name os filename) open_mode] }
            else s) with JITLOG := none }) = some (open_filename os filename s) := by
    intro filename s
    unfold open_filename
    cases strstr filename ['%', 'd'] <;> rfl
  unfold init_from_value filter_part filename_part
  by_cases hplus : value.head? = some '+'
  · simp only [hplus, if_true]
    exact tail _ _
  · simp only [hplus, if_false]
    cases hc : strchr value ':' with
    | none =>
      have hmem : ':' ∉ value := (strchr_eq_none_iff value ':').mp hc
      simp only [if_neg hmem]
      exact tail _ _
    | some n =>
      obtain ⟨h1, h2, h3, h4⟩ := strchr_some value ':' n hc
      have h5 : (List.take n value).length = n := by rw [h1]; exact h4
      simp only [if_pos h3, ← h1, ← h2, h5]
      by_cases hm : os.malloc_ok (n + 1) = true
      · simp only [hm, if_true]
        exact tail (List.drop (n + 1) value)
          { s with jitlog_prefix := some (List.take n value ++ [os.malloc_fill n]) }
      · simp only [hm]
        rfl

theorem try_init_eq (os : Host) (value : List Char) (s : State)
    (hready : s.jitlog_ready = 0) (henv : s.JITLOG = some value) (hne : value ≠ []) :
    jitlog_try_init_using_env os s =
      (init_from_value os value s).map (fun s => { s with jitlog_ready := 1 }) := by
  unfold jitlog_try_init_using_env
  rw [if_neg (by simp [hready]), henv]
  cases value with
  | nil => exact absurd rfl hne
  | cons c cs => rfl

theorem open_filename_fields (os : Host) (filename : List Char) (s : State) :
    (open_filename os filename s).sys =
        (if escaped_name os filename ≠ ['-'] then
          s.sys ++ [Syscall.sys_open (escaped_name os filename) open_mode] else s.sys) ∧
      (open_filename os filename s).jitlog_fd =
        (if escaped_name os filename ≠ ['-'] then os.open_result (escaped_name os filename)
          else s.jitlog_fd) ∧
      (open_filename os filename s).JITLOG =
        (if strstr filename ['%', 'd'] = none then none else s.JITLOG) ∧
      State.jitlog_prefix (open_filename os filename s) = s.jitlog_prefix ∧
      (open_filename os filename s).jitlog_ready = s.jitlog_ready := by
  unfold open_filename
  cases strstr filename ['%', 'd'] <;> (simp only []; split <;> simp)

theorem try_init_split (os : Host) (value : List Char) (s : State)
    (hready : s.jitlog_ready = 0) (henv : s.JITLOG = some value) (hne : value ≠ [])
    (hm1 : ∀ p, filter_part value = some p → os.malloc_ok (p.length + 1) = true) :
    ∃ s0 : State, s0.sys = s.sys ∧ s0.jitlog_fd = s.jitlog_fd ∧ s0.JITLOG = s.JITLOG ∧
      s0.jitlog_prefix = (match filter_part value with
        | none => s.jitlog_prefix
        | some p => some (p ++ [os.malloc_fill p.length])) ∧
      jitlog_try_init_using_env os s =
        some { open_filename os (filename_part value) s0 with jitlog_ready := 1 } := by
  rw [try_init_eq os value s hready henv hne, init_from_value_eq]
  cases hf : filter_part value with
  | none => exact ⟨s, rfl, rfl, rfl, rfl, rfl⟩
  | some p =>
    simp only [hm1 p hf, if_true]
    exact ⟨{ s with jitlog_prefix := some (p ++ [os.malloc_fill p.length]) },
      rfl, rfl, rfl, rfl, rfl⟩

/-! ## C11: the pid escape -/

/-- C11, counterexample.  `JITLOG=trace_%d.log`, process id 4242, and a `malloc`
that returns `NULL` for the new name (line 44): the guard of line 45 skips the
substitution and the name passed to `open` is `trace_%d.log` itself. -/
theorem pid_substitution_counterexample :
    (jitlog_try_init_using_env ⟨4242, fun _ => 3, fun _ => false, fun _ => 'X'⟩
      (initial (some "trace_%d.log".toList))).map (fun s => s.sys) =
    some [Syscall.sys_open "trace_%d.log".toList 0o775] := by
  decide

/-- C11, amended.  Take a logger that is not ready and a non-empty `JITLOG` value
whose filename part is `pre ++ "%d" ++ post`, where `pre` holds no `%d` (so this
is the first occurrence).  When the allocations succeed (the filter block of line
36, if the value has a filter, and the new name of line 44), the call returns and
issues exactly one system call: `open`, with mode 0775, of the name `pre`
followed by the decimal digits of the process id followed by `post`; `jitlog_fd`
is what `open` returned. -/
theorem pid_substitution (os : Host) (s : State) (value pre post : List Char)
    (hready : s.jitlog_ready = 0) (henv : s.JITLOG = some value) (hne : value ≠ [])
    (hpart : filename_part value = pre ++ '%' :: 'd' :: post)
    (hfirst : ¬ ['%', 'd'] <:+: pre)
    (hm1 : ∀ p, filter_part value = some p → os.malloc_ok (p.length + 1) = true)
    (hm2 : os.malloc_ok ((filename_part value).length + 32) = true) :
    ∃ s1, jitlog_try_init_using_env os s = some s1 ∧
      s1.sys = s.sys ++
        [Syscall.sys_open (pre ++ Nat.toDigits 10 os.getpid ++ post) 0o775] ∧
      s1.jitlog_fd = os.open_result (pre ++ Nat.toDigits 10 os.getpid ++ post) := by
  obtain ⟨s0, hsys, _, _, _, hres⟩ := try_init_split os value s hready henv hne hm1
  have hname : escaped_name os (filename_part value) =
      pre ++ Nat.toDigits 10 os.getpid ++ post := by
    unfold escaped_name
    rw [hm2, hpart, strstr_first pre post hfirst]
    simp
  obtain ⟨h1, h2, _, _, _⟩ := open_filename_fields os (filename_part value) s0
  rw [hname, if_pos (escaped_ne_dash pre post os.getpid)] at h1 h2
  refine ⟨_, hres, ?_, ?_⟩
  · simp only [h1, hsys]
    rfl
  · simp only [h2]

/-- Witness for C11, amended: `JITLOG=trace_%d.log` with process id 4242 opens
`trace_4242.log`. -/
theorem pid_substitution_witness :
    ∃ s1, jitlog_try_init_using_env ⟨4242, fun _ => 3, fun _ => true, fun _ => 'X'⟩
        (initial (some "trace_%d.log".toList)) = some s1 ∧
      s1.sys = [Syscall.sys_open "trace_4242.log".toList 0o775] ∧
      s1.jitlog_fd = 3 :=
  pid_substitution ⟨4242, fun _ => 3, fun _ => true, fun _ => 'X'⟩
    (initial (some "trace_%d.log".toList)) "trace_%d.log".toList "trace_".toList ".log".toList
    rfl rfl (by decide) (by decide)
    ((strstr_eq_none_iff _ _).mp (by decide))
    (by intro p hp; cases hp) rfl

/-! ## C12: when the environment variable is cleared -/

/-- C12 (handling of the environment variable).  Take a logger that is not ready
and a non-empty `JITLOG` value, and let the allocation of the filter block, if the
value has a filter, succeed.  The first initialisation returns, and afterwards
`JITLOG` is unset if and only if the filename part holds no `%d`; when it holds
one, `JITLOG` still has its original value. -/
theorem env_cleared_iff (os : Host) (s : State) (value : List Char)
    (hready : s.jitlog_ready = 0) (henv : s.JITLOG = some value) (hne : value ≠ [])
    (hm1 : ∀ p, filter_part value = some p → os.malloc_ok (p.length + 1) = true) :
    ∃ s1, jitlog_try_init_using_env os s = some s1 ∧
      (s1.JITLOG = none ↔ ¬ ['%', 'd'] <:+: filename_part value) ∧
      (['%', 'd'] <:+: filename_part value → s1.JITLOG = some value) := by
  obtain ⟨s0, _, _, henv0, _, hres⟩ := try_init_split os value s hready henv hne hm1
  obtain ⟨_, _, h3, _, _⟩ := open_filename_fields os (filename_part value) s0
  refine ⟨_, hres, ?_, ?_⟩
  · simp only [h3]
    by_cases hs : strstr (filename_part value) ['%', 'd'] = none
    · simp only [hs, if_true, true_iff]
      exact (strstr_eq_none_iff _ _).mp hs
    · simp only [hs, if_false, henv0, henv, reduceCtorEq, false_iff]
      exact fun h => hs ((strstr_eq_none_iff _ _).mpr h)
  · intro hin
    have hs : ¬ strstr (filename_part value) ['%', 'd'] = none :=
      fun h => (strstr_eq_none_iff _ _).mp h hin
    simp only [h3, hs, if_false, henv0, henv]

/-- Witness for C12: `JITLOG=ab:out.log` is unset by the call, and
`JITLOG=trace_%d.log` is left as it is. -/
theorem env_cleared_iff_witness :
    (∃ s1, jitlog_try_init_using_env ⟨4242, fun _ => 3, fun _ => true, fun _ => 'X'⟩
        (initial (some "ab:out.log".toList)) = some s1 ∧
      (s1.JITLOG = none ↔ ¬ ['%', 'd'] <:+: filename_part "ab:out.log".toList) ∧
      (['%', 'd'] <:+: filename_part "ab:out.log".toList →
        s1.JITLOG = some "ab:out.log".toList)) ∧
    (jitlog_try_init_using_env ⟨4242, fun _ => 3, fun _ => true, fun _ => 'X'⟩
        (initial (some "ab:out.log".toList))).map (fun s => s.JITLOG) = some none ∧
    (jitlog_try_init_using_env ⟨4242, fun _ => 3, fun _ => true, fun _ => 'X'⟩
        (initial (some "trace_%d.log".toList))).map (fun s => s.JITLOG) =
      some (some "trace_%d.log".toList) :=
  ⟨env_cleared_iff ⟨4242, fun _ => 3, fun _ => true, fun _ => 'X'⟩
      (initial (some "ab:out.log".toList)) "ab:out.log".toList rfl rfl (by decide)
      (fun _ _ => rfl),
    by decide, by decide⟩

/-! ## C16: the block behind jitlog_prefix -/

theorem filtered_value_block (os : Host) (s : State) (value p : List Char)
    (hready : s.jitlog_ready = 0) (henv : s.JITLOG = some value) (hne : value ≠ [])
    (hp : filter_part value = some p) (hm1 : os.malloc_ok (p.length + 1) = true) :
    ∃ s1, jitlog_try_init_using_env os s = some s1 ∧
      s1.jitlog_prefix = some (p ++ [os.malloc_fill p.length]) := by
  obtain ⟨s0, _, _, _, hpre, hres⟩ := try_init_split os value s hready henv hne
    (fun q hq => by rw [hp] at hq; cases hq; exact hm1)
  obtain ⟨_, _, _, h4, _⟩ := open_filename_fields os (filename_part value) s0
  refine ⟨_, hres, ?_⟩
  simp only [h4, hpre, hp]

/-- C16, the code at the failing input.  `JITLOG=ab:out.log` at program start,
with a `malloc` whose fresh block holds `X` bytes: the file opened is `out.log`,
but the 3-byte block behind `jitlog_prefix` is `a`, `b`, `X`: line 37 copies two
bytes and nothing writes the third (line 38 is commented out).  The block holds
no NUL, so a reader of a NUL-terminated string runs past its end. -/
theorem filter_block_not_terminated :
    (jitlog_try_init_using_env ⟨4242, fun _ => 3, fun _ => true, fun _ => 'X'⟩
      (initial (some "ab:out.log".toList))).map
      (fun s => (s.sys, s.jitlog_prefix, Option.bind s.jitlog_prefix c_string)) =
    some ([Syscall.sys_open "out.log".toList 0o775], some ['a', 'b', 'X'], none) := by
  decide

/-! ## C17: the filename `-` -/

/-- C17 (disabled sink).  Take a logger that is not ready, with `jitlog_fd` at -1,
and a `JITLOG` value whose filename part is exactly `-` (`-`, `+-` or
`prefix:-`), and let the allocation of the filter block, if the value has a
filter, succeed.  The call returns, issues no system call (no file is opened),
leaves `jitlog_fd` at -1 and sets `jitlog_ready` to 1, so that `jitlog_enabled`
returns a non-zero value. -/
theorem dash_opens_no_file (os : Host) (s : State) (value : List Char)
    (hready : s.jitlog_ready = 0) (henv : s.JITLOG = some value)
    (hfd : s.jitlog_fd = -1) (hpart : filename_part value = ['-'])
    (hm1 : ∀ p, filter_part value = some p → os.malloc_ok (p.length + 1) = true) :
    ∃ s1, jitlog_try_init_using_env os s = some s1 ∧
      s1.sys = s.sys ∧ s1.jitlog_fd = -1 ∧ s1.jitlog_ready = 1 ∧
      jitlog_enabled s1 ≠ 0 := by
  have hne : value ≠ [] := by
    intro h
    rw [h] at hpart
    simp [filename_part] at hpart
  obtain ⟨s0, hsys, hfd0, _, _, hres⟩ := try_init_split os value s hready henv hne hm1
  have hname : escaped_name os ['-'] = ['-'] := by
    unfold escaped_name
    have : strstr ['-'] ['%', 'd'] = none := by decide
    rw [this]
  obtain ⟨h1, h2, _, _, _⟩ := open_filename_fields os (filename_part value) s0
  rw [hpart, hname] at h1 h2
  simp only [ne_eq, not_true_eq_false, if_false] at h1 h2
  refine ⟨_, hres, ?_, ?_, rfl, ?_⟩
  · simp only [hpart, h1, hsys]
  · simp only [hpart, h2, hfd0, hfd]
  · simp [jitlog_enabled]

/-- Witness for C17: `JITLOG=ab:-` at program start. -/
theorem dash_opens_no_file_witness :
    filename_part "ab:-".toList = ['-'] ∧
    jitlog_try_init_using_env ⟨4242, fun _ => 3, fun _ => true, fun _ => 'X'⟩
        (initial (some "ab:-".toList)) =
      some { jitlog_fd := -1, jitlog_prefix := some ['a', 'b', 'X'], jitlog_ready := 1,
             JITLOG := none, sys := [] } ∧
    ∃ s1, jitlog_try_init_using_env ⟨4242, fun _ => 3, fun _ => true, fun _ => 'X'⟩
        (initial (some "ab:-".toList)) = some s1 ∧
      s1.sys = [] ∧ s1.jitlog_fd = -1 ∧ s1.jitlog_ready = 1 ∧ jitlog_enabled s1 ≠ 0 :=
  ⟨by decide, by decide,
    dash_opens_no_file ⟨4242, fun _ => 3, fun _ => true, fun _ => 'X'⟩
      (initial (some "ab:-".toList)) "ab:-".toList rfl rfl rfl (by decide)
      (fun _ _ => rfl)⟩

/-! ## C19: a leading `+` -/

/-- C19 (a leading `+` disables the split).  Take a logger that is not ready and a
`JITLOG` value `+rest`.  The call returns, whatever `malloc` answers; it leaves
`jitlog_prefix` unchanged; and it treats the whole of `rest` as the filename, also
when `rest` holds a `:`: the state is the one lines 41-69 produce for the
filename `rest`, with the ready flag set.  In particular, when `rest` holds no
`%d` and is not `-`, the one system call issued is `open` of `rest` with mode
0775. -/
theorem plus_takes_whole_remainder (os : Host) (s : State) (rest : List Char)
    (hready : s.jitlog_ready = 0) (henv : s.JITLOG = some ('+' :: rest)) :
    ∃ s1, jitlog_try_init_using_env os s = some s1 ∧
      s1 = { open_filename os rest s with jitlog_ready := 1 } ∧
      s1.jitlog_prefix = s.jitlog_prefix ∧
      (¬ ['%', 'd'] <:+: rest → rest ≠ ['-'] →
        s1.sys = s.sys ++ [Syscall.sys_open rest 0o775] ∧
        s1.jitlog_fd = os.open_result rest) := by
  have hres : jitlog_try_init_using_env os s =
      some { open_filename os rest s with jitlog_ready := 1 } := by
    rw [try_init_eq os ('+' :: rest) s hready henv (by simp), init_from_value_eq]
    rfl
  obtain ⟨h1, h2, _, h4, _⟩ := open_filename_fields os rest s
  refine ⟨_, hres, rfl, h4, ?_⟩
  intro hno hdash
  have hs : strstr rest ['%', 'd'] = none := (strstr_eq_none_iff _ _).mpr hno
  have hname : escaped_name os rest = rest := by
    unfold escaped_name
    rw [hs]
  rw [hname, if_pos hdash] at h1 h2
  exact ⟨h1, h2⟩

/-- Witness for C19: `JITLOG=+a:b` at program start opens the file `a:b` and sets
no filter. -/
theorem plus_takes_whole_remainder_witness :
    jitlog_try_init_using_env ⟨4242, fun _ => 3, fun _ => true, fun _ => 'X'⟩
        (initial (some "+a:b".toList)) =
      some { jitlog_fd := 3, jitlog_prefix := none, jitlog_ready := 1, JITLOG := none,
             sys := [Syscall.sys_open "a:b".toList 0o775] } ∧
    ∃ s1, jitlog_try_init_using_env ⟨4242, fun _ => 3, fun _ => true, fun _ => 'X'⟩
        (initial (some "+a:b".toList)) = some s1 ∧
      s1.jitlog_prefix = none ∧ s1.sys = [Syscall.sys_open "a:b".toList 0o775] :=
  ⟨by decide,
    (plus_takes_whole_remainder ⟨4242, fun _ => 3, fun _ => true, fun _ => 'X'⟩
      (initial (some "+a:b".toList)) "a:b".toList rfl rfl).elim
      (fun s1 h => ⟨s1, h.1, h.2.2.1,
        (h.2.2.2 ((strstr_eq_none_iff _ _).mp (by decide)) (by decide)).1⟩)⟩

end Jitlog
